import Mathlib

/-!
Shallow embedding of the SAVANA-Lab2 paged-memory simulators.

Namespace `DP` embeds `src/demand_paging_sim.cpp` (demand paging with
FIFO/LRU replacement), namespace `EV` embeds `src/event_simulator.cpp`
(event-driven random allocation), and `EV.Sched` models the event-queue
discipline of `runSimulator`.

Conventions: C++ `int` is modelled as `Int`, with `Int.tdiv` / `Int.tmod`
for the truncating `/` and `%` of C++.  `std::unordered_map` and
`std::unordered_set` are modelled as association lists and lists (the
programs never depend on bucket order).  Vector indices that the code
produces are modelled as `Nat`; `findFreeFrame`'s `-1` sentinel becomes
`none`.  Console output is dropped; a function that only prints and
returns early is modelled by its early return.
-/

namespace PagingSim

/-- In-place update of the element at index `i` (C++ `v[i] = ...`). -/
def updateAt : List α → Nat → (α → α) → List α
  | [], _, _ => []
  | x :: rest, 0, g => g x :: rest
  | x :: rest, n + 1, g => x :: updateAt rest n g

/-- Update the first element satisfying `pred` (a C++ range-for that
mutates one element and then `break`s). -/
def updateFirst : List α → (α → Bool) → (α → α) → List α
  | [], _, _ => []
  | x :: rest, pred, g => if pred x then g x :: rest else x :: updateFirst rest pred g

/-- Lookup in an association list (`std::unordered_map::find`). -/
def tableLookup : List (Int × Int) → Int → Option Int
  | [], _ => none
  | e :: rest, k => if e.1 = k then some e.2 else tableLookup rest k

/-- Insert-or-assign (`std::unordered_map::operator[] = v`). -/
def tableInsert : List (Int × Int) → Int → Int → List (Int × Int)
  | [], k, v => [(k, v)]
  | e :: rest, k, v => if e.1 = k then (k, v) :: rest else e :: tableInsert rest k v

/-- Key removal (`std::unordered_map::erase`). -/
def tableErase (t : List (Int × Int)) (k : Int) : List (Int × Int) :=
  t.filter (fun e => e.1 != k)

/-- Set insertion (`std::unordered_set::insert`). -/
def setInsert (l : List Int) (p : Int) : List Int :=
  if p ∈ l then l else p :: l

/-- Set removal (`std::unordered_set::erase`). -/
def setErase (l : List Int) (p : Int) : List Int :=
  l.filter (fun q => q != p)

/-- The C++ whitespace class used by `std::isspace` and `std::stoi`. -/
def isSpaceChar (c : Char) : Bool :=
  c == ' ' || c == '\t' || c == '\n' || c == '\x0b' || c == '\x0c' || c == '\r'

/-- Base-10 value of a digit string. -/
def digitsToNat : List Char → Nat → Nat
  | [], acc => acc
  | c :: rest, acc => digitsToNat rest (acc * 10 + (c.toNat - Char.toNat '0'))

/-- Splitting a line at commas, as the repeated `getline(ss, tok, ',')`
calls of both importers do.  A trailing comma yields a final empty token
where C++ `getline` would fail instead; both make the subsequent `stoi`
fail, so the behaviours agree. -/
def splitFieldsAux : List Char → List Char → List String
  | [], acc => [⟨acc.reverse⟩]
  | c :: rest, acc =>
    if c = ',' then ⟨acc.reverse⟩ :: splitFieldsAux rest []
    else splitFieldsAux rest (c :: acc)

def splitFields (line : String) : List String :=
  splitFieldsAux line.toList []

/-- `std::stoi` in base 10: skip leading whitespace, an optional sign, then a
nonempty digit run (trailing junk is ignored); `none` models the
`std::invalid_argument` throw.  Values are unbounded here, so the
`std::out_of_range` overflow throw is not modelled. -/
def stoiOpt (s : String) : Option Int :=
  let cs := s.toList.dropWhile isSpaceChar
  let signDigits : Bool × List Char :=
    match cs with
    | '-' :: rest => (true, rest)
    | '+' :: rest => (false, rest)
    | _ => (false, cs)
  let digits := signDigits.2.takeWhile Char.isDigit
  if digits.isEmpty then none
  else
    let v : Int := (digitsToNat digits 0 : Nat)
    some (if signDigits.1 then -v else v)

namespace DP

/-- `struct Job` of demand_paging_sim.cpp. -/
structure Job where
  jobID : Int
  jobSize : Int
  pageSize : Int
  pages : List Int
  loadedPages : List Int
  pageTable : List (Int × Int)
  pageFaults : Int
  deriving DecidableEq

/-- `struct PageFrame` of demand_paging_sim.cpp. -/
structure PageFrame where
  frameID : Int
  frameSize : Int
  isFree : Bool
  jobID : Int
  pageNumber : Int
  accessTime : Int
  modified : Bool
  referenced : Bool
  deriving DecidableEq

/-- The global mutable state of demand_paging_sim.cpp (`memoryFrames`,
`currentTime`, `fifoQueue`, `replacementAlgorithm`) together with the
`jobs` vector that `main` owns and threads through `loadPage` and
`resolveAddress` as `allJobs`.  The C++ `Job &job` arguments alias
elements of that vector and are modelled by indices into `jobs`. -/
structure DPState where
  memoryFrames : List PageFrame
  currentTime : Int
  fifoQueue : List Nat
  replacementAlgorithm : Int
  jobs : List Job
  deriving DecidableEq

/-- `divideJobIntoPages` of demand_paging_sim.cpp: `numPages` page numbers
`0..numPages-1` are appended and the fault counter is reset. -/
def divideJobIntoPages (job : Job) : Job :=
  let numPages := job.jobSize.tdiv job.pageSize
  let remainingBytes := job.jobSize.tmod job.pageSize
  let numPages := if remainingBytes > 0 then numPages + 1 else numPages
  { job with
    pages := job.pages ++ (List.range numPages.toNat).map (fun i => Int.ofNat i),
    pageFaults := 0 }

/-- A fresh frame as pushed by `initFrames`. -/
def mkFrame (i : Nat) (frameSize : Int) : PageFrame :=
  ⟨(i : Int), frameSize, true, -1, -1, 0, false, false⟩

/-- The frame table `initFrames` builds. -/
def mkFrames (numFrames : Nat) (frameSize : Int) : List PageFrame :=
  (List.range numFrames).map (fun i => mkFrame i frameSize)

/-- `initFrames` of demand_paging_sim.cpp: reset the frame table, the FIFO
queue and the global clock (the `jobs` vector is untouched). -/
def initFrames (s : DPState) (numFrames : Nat) (frameSize : Int) : DPState :=
  { s with memoryFrames := mkFrames numFrames frameSize, fifoQueue := [], currentTime := 0 }

/-- `findFreeFrame`: index of the first free frame; the C++ `-1` sentinel
is modelled as `none`. -/
def findFreeFrame : List PageFrame → Option Nat
  | [] => none
  | f :: rest => if f.isFree then some 0 else (findFreeFrame rest).map (· + 1)

/-- `fifoReplacement`: pop the head of the FIFO queue, with frame 0 as the
fallback when the queue is empty. -/
def fifoReplacement (s : DPState) : Nat × DPState :=
  match s.fifoQueue with
  | [] => (0, s)
  | h :: t => (h, { s with fifoQueue := t })

/-- The scan of `lruReplacement`: `oldestTime` starts at `currentTime` and
`frameToReplace` at 0; a strictly smaller `accessTime` updates both, so the
victim is the first frame attaining the minimum below `currentTime`. -/
def lruScan : List PageFrame → Nat → Int → Nat → Nat
  | [], _, _, victim => victim
  | f :: rest, i, oldest, victim =>
    if f.accessTime < oldest then lruScan rest (i + 1) f.accessTime i
    else lruScan rest (i + 1) oldest victim

/-- `lruReplacement` of demand_paging_sim.cpp. -/
def lruReplacement (s : DPState) : Nat :=
  lruScan s.memoryFrames 0 s.currentTime 0

/-- The per-frame update of `loadPage`'s install step. -/
def installFrame (jid p t : Int) (f : PageFrame) : PageFrame :=
  { f with
    isFree := false, jobID := jid, pageNumber := p,
    accessTime := t, referenced := true, modified := false }

/-- The per-job update of `loadPage`'s install step: record `p ↦ fid`. -/
def installJob (p fid : Int) (j : Job) : Job :=
  { j with
    pageTable := tableInsert j.pageTable p fid,
    loadedPages := setInsert j.loadedPages p }

/-- The per-frame update of the page-hit paths: stamp the access time and
the referenced bit. -/
def touchFrame (t : Int) (f : PageFrame) : PageFrame :=
  { f with accessTime := t, referenced := true }

/-- The frame predicate of the page-hit paths: occupied by page `p` of the
job with ID `jid`. -/
def hitPred (jid p : Int) (f : PageFrame) : Bool :=
  !f.isFree && f.jobID == jid && f.pageNumber == p

/-- `job.pageFaults++`. -/
def bumpFaults (j : Job) : Job :=
  { j with pageFaults := j.pageFaults + 1 }

/-- The per-job update of the eviction step: drop the victim page. -/
def evictJob (oldPage : Int) (j : Job) : Job :=
  { j with
    loadedPages := setErase j.loadedPages oldPage,
    pageTable := tableErase j.pageTable oldPage }

/-- The eviction bookkeeping inside `loadPage`: the first job whose ID
matches the victim frame's owner loses the victim page from its
`loadedPages` and `pageTable`. -/
def evictOwner (jobs : List Job) (oldJobID oldPage : Int) : List Job :=
  updateFirst jobs (fun j => j.jobID == oldJobID) (evictJob oldPage)

/-- The frame number read back from `memoryFrames[frameIndex].frameID`
after the install (0 is the out-of-range fallback; it is unreachable at
valid indices). -/
def frameIDAt (frames : List PageFrame) (idx : Nat) : Int :=
  match frames[idx]? with
  | some f => f.frameID
  | none => 0

/-- The tail of `loadPage`'s fault path: install page `p` of job `k` into
frame `idx`, record the mapping in the job's tables and, under FIFO,
append the frame index to the queue.  The stored frame number is the
`frameID` field read back from the frame, as in the C++ code. -/
def installPage (s : DPState) (k : Nat) (p : Int) (idx : Nat) : DPState :=
  match s.jobs[k]? with
  | none => s
  | some job =>
    let frames' := updateAt s.memoryFrames idx (installFrame job.jobID p s.currentTime)
    let fid := frameIDAt frames' idx
    let jobs' := updateAt s.jobs k (installJob p fid)
    let fifo' := if s.replacementAlgorithm = 1 then s.fifoQueue ++ [idx] else s.fifoQueue
    { s with memoryFrames := frames', jobs := jobs', fifoQueue := fifo' }

/-- The eviction guard of `loadPage`'s fault path: if the chosen frame is
occupied, remove its page from the owner job first (reading an index past
the table, which the source would do with zero frames, is a no-op here; it
is unreachable from at least one frame). -/
def evictAt (t : DPState) (idx : Nat) : DPState :=
  match t.memoryFrames[idx]? with
  | some f =>
    if f.isFree then t
    else { t with jobs := evictOwner t.jobs f.jobID f.pageNumber }
  | none => t

/-- The frame-selection tail of `loadPage`'s fault path: take the first
free frame, or consult the active replacement policy, evict the victim's
old page, and install the new one. -/
def chooseInstall (t : DPState) (k : Nat) (p : Int) : DPState :=
  match findFreeFrame t.memoryFrames with
  | some idx => installPage t k p idx
  | none =>
    let pick : Nat × DPState :=
      if t.replacementAlgorithm = 1 then fifoReplacement t else (lruReplacement t, t)
    installPage (evictAt pick.2 pick.1) k p pick.1

/-- `loadPage` of demand_paging_sim.cpp.  A hit stamps the resident frame
with the current clock without advancing it; a fault increments the job's
fault counter and the clock, then installs the page into a free frame or
into the victim chosen by the active replacement policy, after removing
the victim's page from its owner job. -/
def loadPage (s : DPState) (k : Nat) (p : Int) : DPState :=
  match s.jobs[k]? with
  | none => s
  | some job =>
    if p ∈ job.loadedPages then
      { s with
        memoryFrames := updateFirst s.memoryFrames (hitPred job.jobID p)
          (touchFrame s.currentTime) }
    else
      chooseInstall { s with
        jobs := updateAt s.jobs k bumpFaults,
        currentTime := s.currentTime + 1 } k p

/-- The page-hit branch of `resolveAddress` in demand_paging_sim.cpp: stamp
the matching frame and advance the clock.  The clock only moves when a
matching frame exists, because the C++ `currentTime++` sits inside the
loop body before the `break`. -/
def hitStamp (s : DPState) (jid pnum : Int) : DPState :=
  if s.memoryFrames.any (hitPred jid pnum) then
    { s with
      memoryFrames := updateFirst s.memoryFrames (hitPred jid pnum)
        (touchFrame s.currentTime),
      currentTime := s.currentTime + 1 }
  else s

/-- The default insertion of `unordered_map::operator[]` on a missing
key: `pageTable[pageNumber]` becomes 0. -/
def defaultMap (pn : Int) (j : Job) : Job :=
  { j with pageTable := tableInsert j.pageTable pn 0 }

/-- The tail of `resolveAddress` after the demand fetch: read
`job.pageTable[pageNumber]` with `operator[]` (default-inserting 0 when
the key is absent — unreachable from well-formed states) and form
`frameNumber * job.pageSize + offset`. -/
def finishResolve (s1 : DPState) (k : Nat) (pageNumber offset : Int) :
    DPState × Option (Int × Int × Int) :=
  match s1.jobs[k]? with
  | none => (s1, none)
  | some job1 =>
    match tableLookup job1.pageTable pageNumber with
    | some frameNumber =>
      (s1, some (frameNumber * job1.pageSize + offset, frameNumber, offset))
    | none =>
      let s2 : DPState := { s1 with jobs := updateAt s1.jobs k (defaultMap pageNumber) }
      (s2, some (0 * job1.pageSize + offset, 0, offset))

/-- `resolveAddress` of demand_paging_sim.cpp.  Returns the updated state
and `some (physicalAddress, frameNumber, offset)` unless the bound check
fails.  The C++ comparison `pageNumber >= job.pages.size()` promotes the
`int` to `size_t`, so a negative page number is also rejected; note that
the logical address itself is never compared against `jobSize`.  After the
demand fetch the code reads `job.pageTable[pageNumber]` with `operator[]`,
which default-inserts 0 when the key is absent; that branch is modelled
verbatim (it is unreachable from well-formed states). -/
def resolveAddress (s : DPState) (k : Nat) (logicalAddress : Int) :
    DPState × Option (Int × Int × Int) :=
  match s.jobs[k]? with
  | none => (s, none)
  | some job =>
    let pageNumber := logicalAddress.tdiv job.pageSize
    let offset := logicalAddress.tmod job.pageSize
    if pageNumber < 0 ∨ (job.pages.length : Int) ≤ pageNumber then
      (s, none)
    else
      finishResolve
        (if pageNumber ∈ job.loadedPages then hitStamp s job.jobID pageNumber
          else loadPage s k pageNumber) k pageNumber offset

/-- The `(jobID, jobSize)` fields of one CSV line as demand_paging_sim.cpp
reads them (two `getline` tokens fed to an unguarded `stoi`). -/
def parseLineDP (line : String) : Option (Int × Int) :=
  let toks := splitFields line
  match stoiOpt (toks.headD "") with
  | none => none
  | some jid =>
    match stoiOpt ((toks.drop 1).headD "") with
    | none => none
    | some jsz => some (jid, jsz)

/-- `importJobsFromFile` of demand_paging_sim.cpp.  `stoi` is called with no
try/catch, so the first malformed field throws `std::invalid_argument` out
of `main` and kills the import; that abort is modelled as `Except.error`. -/
def importJobsFromFileDP (lines : List String) (pagesize : Int) : Except Unit (List Job) :=
  match lines with
  | [] => .ok []
  | line :: rest =>
    match parseLineDP line with
    | none => .error ()
    | some (jid, jsz) =>
      match importJobsFromFileDP rest pagesize with
      | .error e => .error e
      | .ok jobs => .ok (divideJobIntoPages ⟨jid, jsz, pagesize, [], [], [], 0⟩ :: jobs)

/-- The fields of a frame that the well-formedness invariant reads
(everything except `accessTime` and the R/M bits). -/
def frameShape (f : PageFrame) : Int × Bool × Int × Int × Int :=
  (f.frameID, f.isFree, f.jobID, f.pageNumber, f.frameSize)

/-- The fields of a job that the well-formedness invariant reads
(everything except the fault counter). -/
def jobShape (j : Job) : Int × Int × Int × List Int × List Int × List (Int × Int) :=
  (j.jobID, j.jobSize, j.pageSize, j.pages, j.loadedPages, j.pageTable)

/-- The job fields that no demand-paging operation ever changes. -/
def jobMeta (j : Job) : Int × Int × Int × List Int :=
  (j.jobID, j.jobSize, j.pageSize, j.pages)

/-- States reachable in demand_paging_sim.cpp: initialization (`initFrames`
with at least one frame, together with freshly imported jobs, which have
empty page tables and loaded-page sets, and pairwise-distinct job IDs),
followed by any interleaving of `loadPage`, `resolveAddress` and the
menu's replacement-algorithm switch. -/
inductive Reach : DPState → Prop where
  | init (numFrames : Nat) (frameSize algo : Int) (js : List Job) :
      0 < numFrames →
      (∀ j ∈ js, j.pageTable = [] ∧ j.loadedPages = []) →
      js.Pairwise (fun a b => a.jobID ≠ b.jobID) →
      Reach ⟨mkFrames numFrames frameSize, 0, [], algo, js⟩
  | load (s : DPState) (k : Nat) (p : Int) : Reach s → Reach (loadPage s k p)
  | resolve (s : DPState) (k : Nat) (a : Int) : Reach s → Reach (resolveAddress s k a).1
  | setAlgo (s : DPState) (a : Int) : Reach s → Reach { s with replacementAlgorithm := a }

/-- The three data-model invariants named by the specification: a free
frame holds no `(jobID, pageNumber)` pair (the sentinel `-1` fields), at
most one frame system-wide holds a given pair, and each job's page-table
keys are exactly its loaded pages. -/
structure ClaimedInv (s : DPState) : Prop where
  freeNoPair : ∀ (i : Nat) (f : PageFrame), s.memoryFrames[i]? = some f → f.isFree = true →
    f.jobID = -1 ∧ f.pageNumber = -1
  pairUnique : ∀ (i1 i2 : Nat) (f1 f2 : PageFrame), s.memoryFrames[i1]? = some f1 →
    s.memoryFrames[i2]? = some f2 → f1.isFree = false → f2.isFree = false →
    f1.jobID = f2.jobID → f1.pageNumber = f2.pageNumber → i1 = i2
  tableKeys : ∀ (k : Nat) (j : Job), s.jobs[k]? = some j →
    ∀ p, p ∈ j.loadedPages ↔ (tableLookup j.pageTable p).isSome = true

/-- The inductive well-formedness invariant of the demand-paging state: the
claimed invariants strengthened by the linking facts that make them closed
under `loadPage` and `resolveAddress` (frame IDs equal their indices, job
IDs are unique, page-table entries and occupied frames point at each
other, and the FIFO queue only holds valid frame indices). -/
structure WF (s : DPState) : Prop where
  frameIdx : ∀ (i : Nat) (f : PageFrame), s.memoryFrames[i]? = some f → f.frameID = (i : Int)
  jobsDistinct : ∀ (k1 k2 : Nat) (j1 j2 : Job), s.jobs[k1]? = some j1 →
    s.jobs[k2]? = some j2 → k1 ≠ k2 → j1.jobID ≠ j2.jobID
  loadedIff : ∀ (k : Nat) (j : Job), s.jobs[k]? = some j →
    ∀ p, p ∈ j.loadedPages ↔ (tableLookup j.pageTable p).isSome = true
  tableToFrame : ∀ (k : Nat) (j : Job) (p fr : Int), s.jobs[k]? = some j →
    tableLookup j.pageTable p = some fr →
    ∃ (fi : Nat) (f : PageFrame), fr = (fi : Int) ∧ s.memoryFrames[fi]? = some f ∧
      f.isFree = false ∧ f.jobID = j.jobID ∧ f.pageNumber = p
  frameToTable : ∀ (i : Nat) (f : PageFrame), s.memoryFrames[i]? = some f → f.isFree = false →
    ∃ (k : Nat) (j : Job), s.jobs[k]? = some j ∧ j.jobID = f.jobID ∧
      tableLookup j.pageTable f.pageNumber = some (i : Int)
  freeClean : ∀ (i : Nat) (f : PageFrame), s.memoryFrames[i]? = some f → f.isFree = true →
    f.jobID = -1 ∧ f.pageNumber = -1
  fifoBound : ∀ q ∈ s.fifoQueue, q < s.memoryFrames.length

/-- `WF` with the frame-to-table link exempted at one frame index `idx`,
and with no page-table entry anywhere pointing at `idx`.  The intermediate
states of `loadPage`'s fault path (after choosing, and possibly evicting,
the victim frame) satisfy this, and installing a fresh page into `idx`
restores full well-formedness. -/
structure WFat (s : DPState) (idx : Nat) : Prop where
  frameIdx : ∀ (i : Nat) (f : PageFrame), s.memoryFrames[i]? = some f → f.frameID = (i : Int)
  jobsDistinct : ∀ (k1 k2 : Nat) (j1 j2 : Job), s.jobs[k1]? = some j1 →
    s.jobs[k2]? = some j2 → k1 ≠ k2 → j1.jobID ≠ j2.jobID
  loadedIff : ∀ (k : Nat) (j : Job), s.jobs[k]? = some j →
    ∀ p, p ∈ j.loadedPages ↔ (tableLookup j.pageTable p).isSome = true
  tableToFrame : ∀ (k : Nat) (j : Job) (p fr : Int), s.jobs[k]? = some j →
    tableLookup j.pageTable p = some fr →
    ∃ (fi : Nat) (f : PageFrame), fr = (fi : Int) ∧ s.memoryFrames[fi]? = some f ∧
      f.isFree = false ∧ f.jobID = j.jobID ∧ f.pageNumber = p
  frameToTable : ∀ (i : Nat) (f : PageFrame), i ≠ idx → s.memoryFrames[i]? = some f →
    f.isFree = false → ∃ (k : Nat) (j : Job), s.jobs[k]? = some j ∧ j.jobID = f.jobID ∧
      tableLookup j.pageTable f.pageNumber = some (i : Int)
  freeClean : ∀ (i : Nat) (f : PageFrame), s.memoryFrames[i]? = some f → f.isFree = true →
    f.jobID = -1 ∧ f.pageNumber = -1
  fifoBound : ∀ q ∈ s.fifoQueue, q < s.memoryFrames.length
  noRef : ∀ (k : Nat) (j : Job) (q fr : Int), s.jobs[k]? = some j →
    tableLookup j.pageTable q = some fr → fr ≠ (idx : Int)

end DP

namespace EV

/-- `struct Job` of event_simulator.cpp. -/
structure Job where
  jobID : Int
  jobSize : Int
  pageSize : Int
  internalFragmentation : Int
  pages : List Int
  pageTable : List (Int × Int)
  arrivalTime : Int
  duration : Int
  startTime : Int
  deriving DecidableEq

/-- `struct PageFrame` of event_simulator.cpp. -/
structure PageFrame where
  frameID : Int
  frameSize : Int
  isFree : Bool
  jobID : Int
  pageNumber : Int
  deriving DecidableEq

/-- `divideJobIntoPages` of event_simulator.cpp: clears `pages` and
`pageTable`, guards `pageSize <= 0`, computes the page count and the
internal fragmentation, and numbers the pages `0..numPages-1`. -/
def clearJob (job : Job) : Job :=
  { job with pages := ([] : List Int), pageTable := ([] : List (Int × Int)) }

def divideJobIntoPages (job : Job) : Job :=
  let job := clearJob job
  if job.pageSize ≤ 0 then job
  else
    let numPages := job.jobSize.tdiv job.pageSize
    let remaining := job.jobSize.tmod job.pageSize
    let numPages := if remaining > 0 then numPages + 1 else numPages
    let frag := if remaining > 0 then job.pageSize - remaining else 0
    { job with
      internalFragmentation := frag,
      pages := (List.range numPages.toNat).map (fun i => Int.ofNat i) }

/-- A fresh frame as pushed by `initFrames` of event_simulator.cpp. -/
def mkFrame (i : Nat) (frameSize : Int) : PageFrame :=
  ⟨(i : Int), frameSize, true, -1, -1⟩

/-- `initFrames` of event_simulator.cpp. -/
def initFrames (numFrames : Nat) (frameSize : Int) : List PageFrame :=
  (List.range numFrames).map (fun i => mkFrame i frameSize)

/-- The ascending list of free-frame indices built at the top of
`assignPageFrames`. -/
def freeIndices (frames : List PageFrame) : List Nat :=
  (List.range frames.length).filter (fun i =>
    match frames[i]? with
    | some f => f.isFree
    | none => false)

/-- The number of free frames. -/
def freeCount (frames : List PageFrame) : Nat :=
  frames.countP (fun f => f.isFree)

/-- The assignment loop of `assignPageFrames`: the i-th page is placed into
the i-th shuffled free frame, and the job's page table records the
`frameID` read back from the mutated frame. -/
def assignGo : List Int → List Nat → List PageFrame → Job → List PageFrame × Job
  | [], _, frames, job => (frames, job)
  | _ :: _, [], frames, job => (frames, job)
  | p :: ps, idx :: idxs, frames, job =>
    let frames' := updateAt frames idx (fun f =>
      { f with isFree := false, jobID := job.jobID, pageNumber := p })
    let fid := match frames'[idx]? with
      | some f => f.frameID
      | none => 0
    assignGo ps idxs frames' { job with pageTable := tableInsert job.pageTable p fid }

/-- `assignPageFrames` of event_simulator.cpp.  The `std::shuffle` of the
free-index vector is modelled by the parameter `shuffled`, constrained in
the theorems to be a permutation of `freeIndices frames`.  Returns the C++
`bool` together with the (possibly) updated frame table and job; when the
job needs more frames than are free, the function fails before mutating
anything. -/
def assignPageFrames (frames : List PageFrame) (job : Job) (shuffled : List Nat) :
    Bool × List PageFrame × Job :=
  if (freeIndices frames).length < job.pages.length then (false, frames, job)
  else (true, assignGo job.pages shuffled frames job)

/-- `freeJobFrames` of event_simulator.cpp: release every frame owned by
`jobID`.  It reads and writes only the global frame table; no job record
is touched. -/
def freeJobFrames (jobID : Int) (frames : List PageFrame) : List PageFrame :=
  frames.map (fun f =>
    if !f.isFree && f.jobID == jobID then
      { f with isFree := true, jobID := -1, pageNumber := -1 }
    else f)

/-- The two globals of event_simulator.cpp that completion handling
touches: the frame table and the jobs vector. -/
structure EVSys where
  memoryFrames : List PageFrame
  jobs : List Job
  deriving DecidableEq

/-- `freeJobFrames` acting on the pair of globals (it only changes the
frame table). -/
def freeJobFramesS (jobID : Int) (s : EVSys) : EVSys :=
  { s with memoryFrames := freeJobFrames jobID s.memoryFrames }

/-- The COMPLETE branch of `runSimulator`: `freeJobFrames(ev.jobID)`
followed by `jobMap[ev.jobID]->pageTable.clear()`.  With pairwise-distinct
job IDs the `jobMap` pointer is the unique job carrying that ID, modelled
as the first match. -/
def completeRelease (jobID : Int) (s : EVSys) : EVSys :=
  { freeJobFramesS jobID s with
    jobs := updateFirst s.jobs (fun j => j.jobID == jobID)
      (fun j => { j with pageTable := [] }) }

/-- Outcomes of `resolveAddress` in event_simulator.cpp, one per early
`return` (each prints a distinct message). -/
inductive ResolveResult where
  | invalidPageSize : ResolveResult
  | outOfBounds : ResolveResult
  | pageNotLoaded : ResolveResult
  | invalidFrameNumber : ResolveResult
  | invalidOffset : ResolveResult
  | ok (physical frameNumber offset : Int) : ResolveResult
  deriving DecidableEq

/-- `resolveAddress` of event_simulator.cpp.  The job is `const`, so the
function mutates nothing; the physical address is
`frameNumber * frameSize + offset` with `frameSize` read from the mapped
frame. -/
def resolveAddress (frames : List PageFrame) (job : Job) (logicalAddress : Int) :
    ResolveResult :=
  if job.pageSize ≤ 0 then .invalidPageSize
  else if logicalAddress < 0 ∨ job.jobSize ≤ logicalAddress then .outOfBounds
  else
    let pageNumber := logicalAddress.tdiv job.pageSize
    let offset := logicalAddress.tmod job.pageSize
    match tableLookup job.pageTable pageNumber with
    | none => .pageNotLoaded
    | some frameNumber =>
      if frameNumber < 0 ∨ (frames.length : Int) ≤ frameNumber then .invalidFrameNumber
      else
        match frames[frameNumber.toNat]? with
        | none => .invalidFrameNumber
        | some f =>
          if f.frameSize ≤ offset then .invalidOffset
          else .ok (frameNumber * f.frameSize + offset) frameNumber offset

/-- All-whitespace removal (`remove_if` + `::isspace` in the header
check of `importJobsFromFile`). -/
def trimSpaces (line : String) : String :=
  ⟨line.toList.filter (fun c => !isSpaceChar c)⟩

/-- The header test of event_simulator.cpp's import: the first nonempty
line is skipped when, after removing whitespace, it is nonempty and does
not start with a digit. -/
def isHeaderLine (line : String) : Bool :=
  match (trimSpaces line).toList with
  | [] => false
  | c :: _ => !c.isDigit

/-- One CSV record as event_simulator.cpp parses it: `jobID` and `jobSize`
must parse or the record is skipped; `arrival` and `duration` fall back to
`0` and `max(1, jobSize / 500)` when missing or malformed. -/
def parseRecordEV (line : String) (pageSize : Int) : Option Job :=
  let toks := splitFields line
  match stoiOpt (toks.headD "") with
  | none => none
  | some jid =>
    match toks[1]? with
    | none => none
    | some t1 =>
      match stoiOpt t1 with
      | none => none
      | some jsz =>
        let arrival := match toks[2]? with
          | none => (0 : Int)
          | some t2 => (stoiOpt t2).getD 0
        let dur := match toks[3]? with
          | none => max 1 (jsz.tdiv 500)
          | some t3 => (stoiOpt t3).getD (max 1 (jsz.tdiv 500))
        some (divideJobIntoPages ⟨jid, jsz, pageSize, 0, [], [], arrival, dur, -1⟩)

/-- The line loop of event_simulator.cpp's `importJobsFromFile`; the flag
tracks whether the header check is still pending. -/
def importGoEV (pageSize : Int) : Bool → List String → List Job
  | _, [] => []
  | first, line :: rest =>
    if line.isEmpty then importGoEV pageSize first rest
    else if first && isHeaderLine line then importGoEV pageSize false rest
    else
      match parseRecordEV line pageSize with
      | none => importGoEV pageSize false rest
      | some j => j :: importGoEV pageSize false rest

/-- `importJobsFromFile` of event_simulator.cpp. -/
def importJobsFromFileEV (lines : List String) (pageSize : Int) : List Job :=
  importGoEV pageSize true lines

/-- `enum EventType` of event_simulator.cpp. -/
inductive EventType where
  | arrival : EventType
  | complete : EventType
  deriving DecidableEq

/-- The numeric values `ARRIVAL = 0`, `COMPLETE = 1`. -/
def EventType.toNat : EventType → Nat
  | .arrival => 0
  | .complete => 1

/-- `struct Event` of event_simulator.cpp. -/
structure Event where
  time : Int
  type : EventType
  jobID : Int
  deriving DecidableEq

/-- `Event::operator<`: the comparison is reversed so that the
`std::priority_queue` max-heap pops the minimum time, with ARRIVAL (0)
before COMPLETE (1) on equal times. -/
def eventLess (a b : Event) : Bool :=
  if a.time ≠ b.time then decide (b.time < a.time)
  else decide (b.type.toNat < a.type.toNat)

/-- A scheduler configuration: the pending priority queue (as a bag of
events), the current tick `currentTime`, and the history of dequeued
events in dequeue order. -/
structure Sched where
  pq : List Event
  now : Int
  pops : List Event
  deriving DecidableEq

/-- One step of `runSimulator`'s event handling.  `pop` dequeues a maximal
element under `eventLess` (the `priority_queue` top) once it is due
(`pq.top().time <= currentTime`); `push` enqueues a completion event —
arrivals are only enqueued before the loop, and a completion is pushed at
`currentTime + duration`, which with a negative duration may lie in the
past; `tick` is `++currentTime`. -/
inductive SchedStep : Sched → Sched → Prop where
  | pop (s : Sched) (e : Event) (hm : e ∈ s.pq) (ht : e.time ≤ s.now)
      (hmax : ∀ x ∈ s.pq, eventLess e x = false) :
      SchedStep s ⟨s.pq.erase e, s.now, s.pops ++ [e]⟩
  | push (s : Sched) (e : Event) (hc : e.type = EventType.complete) :
      SchedStep s ⟨e :: s.pq, s.now, s.pops⟩
  | tick (s : Sched) : SchedStep s ⟨s.pq, s.now + 1, s.pops⟩

/-- `SchedStep` restricted to pushes that are due no earlier than the
current tick: the runs arising from nonnegative job durations. -/
inductive SchedStepN : Sched → Sched → Prop where
  | pop (s : Sched) (e : Event) (hm : e ∈ s.pq) (ht : e.time ≤ s.now)
      (hmax : ∀ x ∈ s.pq, eventLess e x = false) :
      SchedStepN s ⟨s.pq.erase e, s.now, s.pops ++ [e]⟩
  | push (s : Sched) (e : Event) (hc : e.type = EventType.complete) (hd : s.now ≤ e.time) :
      SchedStepN s ⟨e :: s.pq, s.now, s.pops⟩
  | tick (s : Sched) : SchedStepN s ⟨s.pq, s.now + 1, s.pops⟩

end EV

namespace DP

/-- Example state for the address-resolution claims: one job of 1000 bytes
with 512-byte pages (pages 0 and 1), eight empty frames, LRU selected. -/
def exJobC1 : Job := ⟨1, 1000, 512, [0, 1], [], [], 0⟩

def exStC1 : DPState := initFrames ⟨[], 0, [], 2, [exJobC1]⟩ 8 512

/-- Example state for the LRU claim: one job with pages 0, 1, 2 and two
empty frames, LRU selected. -/
def exJobC2 : Job := ⟨7, 1500, 512, [0, 1, 2], [], [], 0⟩

def exStC2 : DPState := initFrames ⟨[], 0, [], 2, [exJobC2]⟩ 2 512

/-- The reference string A, B, A, C as pages 0, 1, 0, 2. -/
def exStC2d : DPState := loadPage (loadPage (loadPage (loadPage exStC2 0 0) 0 1) 0 0) 0 2

/-- Two imported jobs sharing jobID 5 (the CSV import does not reject
duplicates). -/
def exJobDup : Job := ⟨5, 1024, 512, [0, 1], [], [], 0⟩

def exStDup : DPState := initFrames ⟨[], 0, [], 2, [exJobDup, exJobDup]⟩ 2 512

end DP

namespace EV

/-- An event-simulator job of 1000 bytes with both pages resident. -/
def exJobEV : Job := ⟨1, 1000, 512, 24, [0, 1], [(0, 2), (1, 5)], 0, 2, -1⟩

def exFramesEV : List PageFrame := initFrames 8 512

/-- A two-frame system where job 1 owns frame 0 and has a nonempty page
table. -/
def exSysC5 : EVSys :=
  ⟨[⟨0, 512, false, 1, 0⟩, ⟨1, 512, true, -1, -1⟩],
   [⟨1, 600, 512, 424, [0], [(0, 0)], 0, 2, -1⟩]⟩

end EV

end PagingSim

namespace PagingSim

theorem length_updateAt : ∀ (l : List α) (i : Nat) (g : α → α),
    (updateAt l i g).length = l.length
  | [], _, _ => rfl
  | _ :: rest, 0, g => rfl
  | _ :: rest, i + 1, g => by simp [updateAt, length_updateAt rest i g]

theorem getElem?_updateAt_self : ∀ (l : List α) (i : Nat) (g : α → α),
    (updateAt l i g)[i]? = (l[i]?).map g
  | [], i, _ => by cases i <;> rfl
  | _ :: rest, 0, g => by simp [updateAt]
  | _ :: rest, i + 1, g => by
    simpa [updateAt] using getElem?_updateAt_self rest i g

theorem getElem?_updateAt_ne : ∀ (l : List α) (i j : Nat) (g : α → α), j ≠ i →
    (updateAt l i g)[j]? = l[j]?
  | [], _, _, _, _ => by simp [updateAt]
  | _ :: rest, 0, 0, g, h => absurd rfl h
  | _ :: rest, 0, j + 1, g, _ => by simp [updateAt]
  | _ :: rest, i + 1, 0, g, _ => by simp [updateAt]
  | _ :: rest, i + 1, j + 1, g, h => by
    have hne : j ≠ i := fun hc => h (by omega)
    simpa [updateAt] using getElem?_updateAt_ne rest i j g hne

theorem length_updateFirst : ∀ (l : List α) (pred : α → Bool) (g : α → α),
    (updateFirst l pred g).length = l.length
  | [], _, _ => rfl
  | x :: rest, pred, g => by
    by_cases h : pred x = true <;>
      simp [updateFirst, h, length_updateFirst rest pred g]

/-- Each position is either untouched by `updateFirst` or holds the image
under `g` of an element satisfying the predicate. -/
theorem getElem?_updateFirst_cases : ∀ (l : List α) (pred : α → Bool) (g : α → α) (i : Nat),
    (updateFirst l pred g)[i]? = l[i]? ∨
      ((updateFirst l pred g)[i]? = (l[i]?).map g ∧
        ∃ x, l[i]? = some x ∧ pred x = true)
  | [], _, _, i => Or.inl (by simp [updateFirst])
  | x :: rest, pred, g, i => by
    by_cases h : pred x = true
    · cases i with
      | zero => exact Or.inr ⟨by simp [updateFirst, h], x, by simp, h⟩
      | succ i => exact Or.inl (by simp [updateFirst, h])
    · cases i with
      | zero => exact Or.inl (by simp [updateFirst, h])
      | succ i =>
        rcases getElem?_updateFirst_cases rest pred g i with hc | ⟨hc, y, hy, hpy⟩
        · exact Or.inl (by simpa [updateFirst, h] using hc)
        · exact Or.inr ⟨by simpa [updateFirst, h] using hc, y, by simpa using hy, hpy⟩

/-- When at most one element satisfies the predicate, `updateFirst` updates
exactly the position holding it. -/
theorem updateFirst_unique : ∀ (l : List α) (pred : α → Bool) (g : α → α) (k : Nat) (x : α),
    (∀ (i j : Nat) (xi xj : α), l[i]? = some xi → l[j]? = some xj →
      pred xi = true → pred xj = true → i = j) →
    l[k]? = some x → pred x = true →
    (updateFirst l pred g)[k]? = some (g x) ∧
      ∀ j, j ≠ k → (updateFirst l pred g)[j]? = l[j]?
  | [], _, _, k, x, _, hk, _ => by simp at hk
  | y :: rest, pred, g, k, x, huniq, hk, hx => by
    by_cases hpy : pred y = true
    · have hk0 : k = 0 := by
        rcases k with _ | k
        · rfl
        · exact absurd (huniq (k + 1) 0 x y hk (by simp) hx hpy) (by omega)
      subst hk0
      simp only [List.getElem?_cons_zero, Option.some.injEq] at hk
      subst hk
      refine ⟨by simp [updateFirst, hpy], fun j hj => ?_⟩
      rcases j with _ | j
      · exact absurd rfl hj
      · simp [updateFirst, hpy]
    · have hxy : x ≠ y := fun hc => hpy (hc ▸ hx)
      rcases k with _ | k
      · simp only [List.getElem?_cons_zero, Option.some.injEq] at hk
        exact absurd hk.symm hxy
      · have huniq' : ∀ (i j : Nat) (xi xj : α), rest[i]? = some xi → rest[j]? = some xj →
            pred xi = true → pred xj = true → i = j := fun i j xi xj hi hj hpi hpj => by
          have := huniq (i + 1) (j + 1) xi xj (by simpa using hi) (by simpa using hj) hpi hpj
          omega
        have hk' : rest[k]? = some x := by simpa using hk
        rcases updateFirst_unique rest pred g k x huniq' hk' hx with ⟨h1, h2⟩
        refine ⟨by simpa [updateFirst, hpy] using h1, fun j hj => ?_⟩
        rcases j with _ | j
        · simp [updateFirst, hpy]
        · have : j ≠ k := fun hc => hj (by omega)
          simpa [updateFirst, hpy] using h2 j this

/-- `updateFirst` with a predicate that never holds is the identity. -/
theorem updateFirst_id : ∀ (l : List α) (pred : α → Bool) (g : α → α),
    (∀ x ∈ l, pred x = false) → updateFirst l pred g = l
  | [], _, _, _ => rfl
  | x :: rest, pred, g, h => by
    have hx := h x (by simp)
    simp only [updateFirst, hx, Bool.false_eq_true, if_false, List.cons.injEq, true_and]
    exact updateFirst_id rest pred g (fun y hy => h y (by simp [hy]))

theorem tableLookup_insert_self : ∀ (t : List (Int × Int)) (k v : Int),
    tableLookup (tableInsert t k v) k = some v
  | [], k, v => by simp [tableInsert, tableLookup]
  | e :: rest, k, v => by
    by_cases h : e.1 = k
    · simp [tableInsert, tableLookup, h]
    · simp [tableInsert, tableLookup, h, tableLookup_insert_self rest k v]

theorem tableLookup_insert_ne : ∀ (t : List (Int × Int)) (k v q : Int), q ≠ k →
    tableLookup (tableInsert t k v) q = tableLookup t q
  | [], k, v, q, h => by
    have hk : ¬k = q := fun hc => h hc.symm
    simp [tableInsert, tableLookup, hk]
  | e :: rest, k, v, q, h => by
    have hk : ¬k = q := fun hc => h hc.symm
    by_cases he : e.1 = k
    · subst he
      simp [tableInsert, tableLookup, hk]
    · simp [tableInsert, tableLookup, he, tableLookup_insert_ne rest k v q h]

theorem tableLookup_erase_self : ∀ (t : List (Int × Int)) (k : Int),
    tableLookup (tableErase t k) k = none
  | [], _ => rfl
  | e :: rest, k => by
    by_cases h : e.1 = k
    · simp only [tableErase, List.filter_cons, h, bne_self_eq_false, if_false]
      exact tableLookup_erase_self rest k
    · have hb : (e.1 != k) = true := bne_iff_ne.mpr h
      simp only [tableErase, List.filter_cons, hb, if_true, tableLookup, h, if_false]
      exact tableLookup_erase_self rest k

theorem tableLookup_erase_ne : ∀ (t : List (Int × Int)) (k q : Int), q ≠ k →
    tableLookup (tableErase t k) q = tableLookup t q
  | [], _, _, _ => rfl
  | e :: rest, k, q, h => by
    by_cases he : e.1 = k
    · have hne : ¬e.1 = q := fun hc => h (he ▸ hc ▸ rfl)
      have hk : ¬k = q := fun hc => h hc.symm
      simp only [tableErase, List.filter_cons, he, bne_self_eq_false, if_false, tableLookup,
        hk]
      exact tableLookup_erase_ne rest k q h
    · have hb : (e.1 != k) = true := bne_iff_ne.mpr he
      by_cases heq : e.1 = q
      · simp [tableErase, List.filter_cons, hb, tableLookup, heq, h]
      · simp only [tableErase, List.filter_cons, hb, if_true, tableLookup, heq, if_false]
        exact tableLookup_erase_ne rest k q h

theorem mem_setInsert (l : List Int) (p q : Int) :
    q ∈ setInsert l p ↔ q = p ∨ q ∈ l := by
  by_cases h : p ∈ l
  · simp only [setInsert, h, if_true]
    constructor
    · exact Or.inr
    · rintro (rfl | hq)
      · exact h
      · exact hq
  · simp [setInsert, h]

theorem mem_setErase (l : List Int) (p q : Int) :
    q ∈ setErase l p ↔ q ∈ l ∧ q ≠ p := by
  simp [setErase, List.mem_filter]

end PagingSim

namespace PagingSim

theorem map_shape_some {α β : Type} (sh : α → β) {o o' : Option α}
    (h : o'.map sh = o.map sh) {x' : α} (hx : o' = some x') :
    ∃ x, o = some x ∧ sh x = sh x' := by
  subst hx
  cases o with
  | none => simp at h
  | some x => exact ⟨x, rfl, by simpa using h.symm⟩

/-- `updateAt` with a shape-preserving update preserves every position's
shape. -/
theorem getElem?_updateAt_shape {α β : Type} (sh : α → β) (l : List α) (k : Nat) (g : α → α)
    (hg : ∀ x, sh (g x) = sh x) (i : Nat) :
    ((updateAt l k g)[i]?).map sh = (l[i]?).map sh := by
  by_cases h : i = k
  · subst h
    rw [getElem?_updateAt_self]
    cases l[i]? <;> simp [hg]
  · rw [getElem?_updateAt_ne l k i g h]

/-- `updateFirst` with a shape-preserving update preserves every position's
shape. -/
theorem getElem?_updateFirst_shape {α β : Type} (sh : α → β) (l : List α) (pred : α → Bool)
    (g : α → α) (hg : ∀ x, sh (g x) = sh x) (i : Nat) :
    ((updateFirst l pred g)[i]?).map sh = (l[i]?).map sh := by
  rcases getElem?_updateFirst_cases l pred g i with h | ⟨h, _, _, _⟩
  · rw [h]
  · rw [h]
    cases l[i]? <;> simp [hg]

namespace DP

theorem length_mkFrames (n : Nat) (fs : Int) : (mkFrames n fs).length = n := by
  simp [mkFrames]

theorem getElem?_mkFrames (n : Nat) (fs : Int) (i : Nat) :
    (mkFrames n fs)[i]? = if i < n then some (mkFrame i fs) else none := by
  by_cases h : i < n
  · simp [mkFrames, List.getElem?_map, List.getElem?_range, h]
  · rw [List.getElem?_eq_none (by simpa [mkFrames] using Nat.le_of_not_lt h), if_neg h]

theorem findFreeFrame_some : ∀ (l : List PageFrame) (i : Nat), findFreeFrame l = some i →
    ∃ f, l[i]? = some f ∧ f.isFree = true
  | [], i, h => by simp [findFreeFrame] at h
  | f0 :: rest, i, h => by
    by_cases hf : f0.isFree = true
    · simp only [findFreeFrame, hf, if_true, Option.some.injEq] at h
      subst h
      exact ⟨f0, by simp, hf⟩
    · rw [findFreeFrame, if_neg hf] at h
      cases hr : findFreeFrame rest with
      | none => rw [hr] at h; simp at h
      | some j =>
        rw [hr] at h
        simp only [Option.map_some', Option.some.injEq] at h
        rcases findFreeFrame_some rest j hr with ⟨f, hf1, hf2⟩
        exact ⟨f, by rw [← h]; simpa using hf1, hf2⟩

theorem findFreeFrame_none : ∀ (l : List PageFrame), findFreeFrame l = none →
    ∀ (i : Nat) (f : PageFrame), l[i]? = some f → f.isFree = false
  | [], _, i, f, h => by simp at h
  | f0 :: rest, h, i, f, hif => by
    by_cases hf : f0.isFree = true
    · simp [findFreeFrame, hf] at h
    · rcases i with _ | i
      · simp only [List.getElem?_cons_zero, Option.some.injEq] at hif
        subst hif
        simpa using hf
      · have hrest : findFreeFrame rest = none := by
          simpa [findFreeFrame, hf, Option.map_eq_none'] using h
        exact findFreeFrame_none rest hrest i f (by simpa using hif)

theorem lruScan_bound : ∀ (l : List PageFrame) (i : Nat) (o : Int) (v : Nat),
    lruScan l i o v = v ∨ (i ≤ lruScan l i o v ∧ lruScan l i o v < i + l.length)
  | [], _, _, _ => Or.inl rfl
  | f :: rest, i, o, v => by
    have hlen : (f :: rest).length = rest.length + 1 := List.length_cons f rest
    by_cases hf : f.accessTime < o
    · simp only [lruScan, hf, if_true]
      rcases lruScan_bound rest (i + 1) f.accessTime i with h | ⟨h1, h2⟩
      · rw [h]
        right
        omega
      · right
        omega
    · simp only [lruScan, hf, if_false]
      rcases lruScan_bound rest (i + 1) o v with h | ⟨h1, h2⟩
      · exact Or.inl h
      · right
        omega

theorem lruReplacement_lt (s : DPState) (h : 0 < s.memoryFrames.length) :
    lruReplacement s < s.memoryFrames.length := by
  rcases lruScan_bound s.memoryFrames 0 s.currentTime 0 with h0 | ⟨_, h2⟩
  · rw [lruReplacement, h0]
    exact h
  · simpa [lruReplacement] using h2

end DP

end PagingSim

namespace PagingSim

namespace DP

theorem frameShape_fields {f f' : PageFrame} (h : frameShape f = frameShape f') :
    f.frameID = f'.frameID ∧ f.isFree = f'.isFree ∧ f.jobID = f'.jobID ∧
      f.pageNumber = f'.pageNumber ∧ f.frameSize = f'.frameSize := by
  simpa [frameShape, Prod.ext_iff] using h

theorem jobShape_fields {j j' : Job} (h : jobShape j = jobShape j') :
    j.jobID = j'.jobID ∧ j.jobSize = j'.jobSize ∧ j.pageSize = j'.pageSize ∧
      j.pages = j'.pages ∧ j.loadedPages = j'.loadedPages ∧ j.pageTable = j'.pageTable := by
  simpa [jobShape, Prod.ext_iff] using h

/-- Well-formedness only looks at the shape of the frame table: a state
whose frames agree position-wise up to `frameShape` (and whose jobs and
FIFO queue agree) inherits it. -/
theorem wf_frames_shape {s s' : DPState}
    (hjobs : s'.jobs = s.jobs)
    (hfifo : s'.fifoQueue = s.fifoQueue)
    (hlen : s'.memoryFrames.length = s.memoryFrames.length)
    (hsh : ∀ (i : Nat), (s'.memoryFrames[i]?).map frameShape = (s.memoryFrames[i]?).map frameShape)
    (hwf : WF s) : WF s' := by
  constructor
  · intro i f hif
    obtain ⟨f0, hf0, hfs⟩ := map_shape_some frameShape (hsh i) hif
    rw [← (frameShape_fields hfs).1]
    exact hwf.frameIdx i f0 hf0
  · rw [hjobs]
    exact hwf.jobsDistinct
  · rw [hjobs]
    exact hwf.loadedIff
  · intro k j p fr hk hlk
    rw [hjobs] at hk
    obtain ⟨fi, f0, hfr, hf0, hfree, hjid, hpn⟩ := hwf.tableToFrame k j p fr hk hlk
    obtain ⟨f1, hf1, hfs⟩ := map_shape_some frameShape (hsh fi).symm hf0
    obtain ⟨-, h2, h3, h4, -⟩ := frameShape_fields hfs
    exact ⟨fi, f1, hfr, hf1, h2.symm ▸ hfree, h3.symm ▸ hjid, h4.symm ▸ hpn⟩
  · intro i f hif hfree
    obtain ⟨f0, hf0, hfs⟩ := map_shape_some frameShape (hsh i) hif
    obtain ⟨-, h2, h3, h4, -⟩ := frameShape_fields hfs
    obtain ⟨k, j, hk, hjid, hlk⟩ := hwf.frameToTable i f0 hf0 (h2 ▸ hfree)
    exact ⟨k, j, hjobs ▸ hk, h3 ▸ hjid, h4 ▸ hlk⟩
  · intro i f hif hfree
    obtain ⟨f0, hf0, hfs⟩ := map_shape_some frameShape (hsh i) hif
    obtain ⟨-, h2, h3, h4, -⟩ := frameShape_fields hfs
    obtain ⟨hj, hp⟩ := hwf.freeClean i f0 hf0 (h2 ▸ hfree)
    exact ⟨h3 ▸ hj, h4 ▸ hp⟩
  · rw [hfifo, hlen]
    exact hwf.fifoBound

/-- Well-formedness only looks at the shape of the jobs vector. -/
theorem wf_jobs_shape {s s' : DPState}
    (hframes : s'.memoryFrames = s.memoryFrames)
    (hfifo : s'.fifoQueue = s.fifoQueue)
    (hsh : ∀ (k : Nat), (s'.jobs[k]?).map jobShape = (s.jobs[k]?).map jobShape)
    (hwf : WF s) : WF s' := by
  constructor
  · rw [hframes]
    exact hwf.frameIdx
  · intro k1 k2 j1 j2 h1 h2 hne
    obtain ⟨j1o, h1o, hs1⟩ := map_shape_some jobShape (hsh k1) h1
    obtain ⟨j2o, h2o, hs2⟩ := map_shape_some jobShape (hsh k2) h2
    rw [← (jobShape_fields hs1).1, ← (jobShape_fields hs2).1]
    exact hwf.jobsDistinct k1 k2 j1o j2o h1o h2o hne
  · intro k j hk p
    obtain ⟨j0, h0, hs⟩ := map_shape_some jobShape (hsh k) hk
    obtain ⟨-, -, -, -, h5, h6⟩ := jobShape_fields hs
    rw [← h5, ← h6]
    exact hwf.loadedIff k j0 h0 p
  · intro k j p fr hk hlk
    obtain ⟨j0, h0, hs⟩ := map_shape_some jobShape (hsh k) hk
    obtain ⟨h1, -, -, -, -, h6⟩ := jobShape_fields hs
    rw [hframes]
    rw [← h6] at hlk
    obtain ⟨fi, f, hfr, hf, hfree, hjid, hpn⟩ := hwf.tableToFrame k j0 p fr h0 hlk
    exact ⟨fi, f, hfr, hf, hfree, h1 ▸ hjid, hpn⟩
  · intro i f hif hfree
    rw [hframes] at hif
    obtain ⟨k, j0, hk, hjid, hlk⟩ := hwf.frameToTable i f hif hfree
    obtain ⟨j1, h1, hs⟩ := map_shape_some jobShape (hsh k).symm hk
    obtain ⟨ha, -, -, -, -, hf6⟩ := jobShape_fields hs
    exact ⟨k, j1, h1, ha.symm ▸ hjid, hf6.symm ▸ hlk⟩
  · rw [hframes]
    exact hwf.freeClean
  · rw [hfifo, hframes]
    exact hwf.fifoBound

/-- The strengthened invariant implies the three invariants the
specification claims. -/
theorem wf_claimedInv {s : DPState} (hwf : WF s) : ClaimedInv s := by
  refine ⟨hwf.freeClean, ?_, hwf.loadedIff⟩
  intro i1 i2 f1 f2 h1 h2 hf1 hf2 hj hp
  obtain ⟨k1, j1, hk1, hjid1, hlk1⟩ := hwf.frameToTable i1 f1 h1 hf1
  obtain ⟨k2, j2, hk2, hjid2, hlk2⟩ := hwf.frameToTable i2 f2 h2 hf2
  have hkk : k1 = k2 := by
    by_contra hne
    exact hwf.jobsDistinct k1 k2 j1 j2 hk1 hk2 hne (by rw [hjid1, hjid2, hj])
  subst hkk
  rw [hk1] at hk2
  injection hk2 with hk2
  subst hk2
  rw [hp] at hlk1
  rw [hlk1] at hlk2
  injection hlk2 with hlk2
  exact Int.natCast_inj.mp hlk2

end DP

end PagingSim

namespace PagingSim

theorem getElem?_some_lt {l : List α} {i : Nat} {x : α} (h : l[i]? = some x) :
    i < l.length :=
  (List.getElem?_eq_some.mp h).1

namespace DP

theorem installFrame_frameID (jid p t : Int) (f : PageFrame) :
    (installFrame jid p t f).frameID = f.frameID := rfl

theorem frameShape_touchFrame (t : Int) (f : PageFrame) :
    frameShape (touchFrame t f) = frameShape f := rfl

theorem jobShape_bumpFaults (j : Job) : jobShape (bumpFaults j) = jobShape j := rfl

/-- `installPage` written out for a valid target frame: the stored frame
number is the target frame's `frameID` field. -/
theorem installPage_eq {s : DPState} {k idx : Nat} {p : Int} {job : Job} {f0 : PageFrame}
    (hk : s.jobs[k]? = some job) (hf0 : s.memoryFrames[idx]? = some f0) :
    installPage s k p idx = { s with
      memoryFrames := updateAt s.memoryFrames idx (installFrame job.jobID p s.currentTime),
      jobs := updateAt s.jobs k (installJob p f0.frameID),
      fifoQueue := if s.replacementAlgorithm = 1 then s.fifoQueue ++ [idx] else s.fifoQueue } := by
  have hsel : (updateAt s.memoryFrames idx (installFrame job.jobID p s.currentTime))[idx]? =
      some (installFrame job.jobID p s.currentTime f0) := by
    rw [getElem?_updateAt_self, hf0]
    rfl
  simp only [installPage, frameIDAt, hk, hsel, installFrame_frameID]

/-- Installing a fresh page of job `k` into the detached frame `idx`
restores full well-formedness. -/
theorem installPage_wf {s : DPState} {idx : Nat} (hat : WFat s idx) {k : Nat} {job : Job}
    (hk : s.jobs[k]? = some job) {p : Int}
    (hnew : tableLookup job.pageTable p = none)
    (hidx : idx < s.memoryFrames.length) : WF (installPage s k p idx) := by
  have hf0 : s.memoryFrames[idx]? = some s.memoryFrames[idx] := List.getElem?_eq_getElem hidx
  have hfid : s.memoryFrames[idx].frameID = (idx : Int) := hat.frameIdx idx _ hf0
  rw [installPage_eq hk hf0, hfid]
  have hF_self : (updateAt s.memoryFrames idx (installFrame job.jobID p s.currentTime))[idx]? =
      some (installFrame job.jobID p s.currentTime s.memoryFrames[idx]) := by
    rw [getElem?_updateAt_self, hf0]
    rfl
  have hF_ne : ∀ (i : Nat), i ≠ idx →
      (updateAt s.memoryFrames idx (installFrame job.jobID p s.currentTime))[i]? =
      s.memoryFrames[i]? := fun i hi => getElem?_updateAt_ne _ _ _ _ hi
  have hJ_self : (updateAt s.jobs k (installJob p (idx : Int)))[k]? =
      some (installJob p (idx : Int) job) := by
    rw [getElem?_updateAt_self, hk]
    rfl
  have hJ_ne : ∀ (k0 : Nat), k0 ≠ k →
      (updateAt s.jobs k (installJob p (idx : Int)))[k0]? = s.jobs[k0]? :=
    fun k0 hk0 => getElem?_updateAt_ne _ _ _ _ hk0
  have hJid : ∀ (k0 : Nat),
      ((updateAt s.jobs k (installJob p (idx : Int)))[k0]?).map Job.jobID =
      (s.jobs[k0]?).map Job.jobID :=
    getElem?_updateAt_shape Job.jobID s.jobs k _ (fun x => rfl)
  constructor
  · -- frameIdx
    show ∀ (i : Nat) (f : PageFrame),
      (updateAt s.memoryFrames idx (installFrame job.jobID p s.currentTime))[i]? = some f →
      f.frameID = (i : Int)
    intro i f hif
    by_cases hi : i = idx
    · subst hi
      rw [hF_self] at hif
      injection hif with hif
      rw [← hif]
      exact hfid
    · rw [hF_ne i hi] at hif
      exact hat.frameIdx i f hif
  · -- jobsDistinct
    show ∀ (k1 k2 : Nat) (j1 j2 : Job),
      (updateAt s.jobs k (installJob p (idx : Int)))[k1]? = some j1 →
      (updateAt s.jobs k (installJob p (idx : Int)))[k2]? = some j2 →
      k1 ≠ k2 → j1.jobID ≠ j2.jobID
    intro k1 k2 j1 j2 h1 h2 hne
    obtain ⟨j1o, h1o, hs1⟩ := map_shape_some Job.jobID (hJid k1) h1
    obtain ⟨j2o, h2o, hs2⟩ := map_shape_some Job.jobID (hJid k2) h2
    rw [← hs1, ← hs2]
    exact hat.jobsDistinct k1 k2 j1o j2o h1o h2o hne
  · -- loadedIff
    show ∀ (k0 : Nat) (j : Job),
      (updateAt s.jobs k (installJob p (idx : Int)))[k0]? = some j →
      ∀ q, q ∈ j.loadedPages ↔ (tableLookup j.pageTable q).isSome = true
    intro k0 j hk0 q
    by_cases hkk : k0 = k
    · rw [hkk, hJ_self] at hk0
      injection hk0 with hk0
      subst hk0
      show q ∈ setInsert job.loadedPages p ↔
        (tableLookup (tableInsert job.pageTable p (idx : Int)) q).isSome = true
      by_cases hq : q = p
      · subst hq
        simp [mem_setInsert, tableLookup_insert_self]
      · rw [tableLookup_insert_ne _ _ _ _ hq, mem_setInsert]
        simp only [hq, false_or]
        exact hat.loadedIff k job hk q
    · rw [hJ_ne k0 hkk] at hk0
      exact hat.loadedIff k0 j hk0 q
  · -- tableToFrame
    show ∀ (k0 : Nat) (j : Job) (q fr : Int),
      (updateAt s.jobs k (installJob p (idx : Int)))[k0]? = some j →
      tableLookup j.pageTable q = some fr →
      ∃ (fi : Nat) (f : PageFrame), fr = (fi : Int) ∧
        (updateAt s.memoryFrames idx (installFrame job.jobID p s.currentTime))[fi]? = some f ∧
        f.isFree = false ∧ f.jobID = j.jobID ∧ f.pageNumber = q
    intro k0 j q fr hk0 hlk
    by_cases hkk : k0 = k
    · rw [hkk, hJ_self] at hk0
      injection hk0 with hk0
      subst hk0
      by_cases hq : q = p
      · subst hq
        rw [show (installJob q (idx : Int) job).pageTable =
            tableInsert job.pageTable q (idx : Int) from rfl,
          tableLookup_insert_self] at hlk
        injection hlk with hlk
        exact ⟨idx, installFrame job.jobID q s.currentTime s.memoryFrames[idx],
          hlk.symm, hF_self, rfl, rfl, rfl⟩
      · rw [show (installJob p (idx : Int) job).pageTable =
            tableInsert job.pageTable p (idx : Int) from rfl,
          tableLookup_insert_ne _ _ _ _ hq] at hlk
        obtain ⟨fi, f, hfr, hf, hfree, hjid, hpn⟩ := hat.tableToFrame k job q fr hk hlk
        have hfi : fi ≠ idx := fun hc =>
          hat.noRef k job q fr hk hlk (by rw [hfr, hc])
        exact ⟨fi, f, hfr, by rw [hF_ne fi hfi]; exact hf, hfree, hjid, hpn⟩
    · rw [hJ_ne k0 hkk] at hk0
      obtain ⟨fi, f, hfr, hf, hfree, hjid, hpn⟩ := hat.tableToFrame k0 j q fr hk0 hlk
      have hfi : fi ≠ idx := fun hc =>
        hat.noRef k0 j q fr hk0 hlk (by rw [hfr, hc])
      exact ⟨fi, f, hfr, by rw [hF_ne fi hfi]; exact hf, hfree, hjid, hpn⟩
  · -- frameToTable
    show ∀ (i : Nat) (f : PageFrame),
      (updateAt s.memoryFrames idx (installFrame job.jobID p s.currentTime))[i]? = some f →
      f.isFree = false →
      ∃ (k0 : Nat) (j : Job),
        (updateAt s.jobs k (installJob p (idx : Int)))[k0]? = some j ∧ j.jobID = f.jobID ∧
        tableLookup j.pageTable f.pageNumber = some (i : Int)
    intro i f hif hfree
    by_cases hi : i = idx
    · subst hi
      rw [hF_self] at hif
      injection hif with hif
      subst hif
      refine ⟨k, installJob p (i : Int) job, hJ_self, rfl, ?_⟩
      show tableLookup (tableInsert job.pageTable p (i : Int)) p = some (i : Int)
      rw [tableLookup_insert_self]
    · rw [hF_ne i hi] at hif
      obtain ⟨k0, j0, hk0, hjid, hlk⟩ := hat.frameToTable i f hi hif hfree
      by_cases hkk : k0 = k
      · rw [hkk, hk] at hk0
        injection hk0 with hk0
        subst hk0
        have hqp : f.pageNumber ≠ p := by
          intro hc
          rw [hc, hnew] at hlk
          exact Option.noConfusion hlk
        refine ⟨k, installJob p (idx : Int) job, hJ_self, hjid, ?_⟩
        show tableLookup (tableInsert job.pageTable p (idx : Int)) f.pageNumber = some (i : Int)
        rw [tableLookup_insert_ne _ _ _ _ hqp]
        exact hlk
      · exact ⟨k0, j0, by rw [hJ_ne k0 hkk]; exact hk0, hjid, hlk⟩
  · -- freeClean
    show ∀ (i : Nat) (f : PageFrame),
      (updateAt s.memoryFrames idx (installFrame job.jobID p s.currentTime))[i]? = some f →
      f.isFree = true → f.jobID = -1 ∧ f.pageNumber = -1
    intro i f hif hfree
    by_cases hi : i = idx
    · subst hi
      rw [hF_self] at hif
      injection hif with hif
      rw [← hif] at hfree
      exact absurd hfree (by simp [installFrame])
    · rw [hF_ne i hi] at hif
      exact hat.freeClean i f hif hfree
  · -- fifoBound
    show ∀ q ∈ (if s.replacementAlgorithm = 1 then s.fifoQueue ++ [idx] else s.fifoQueue),
      q < (updateAt s.memoryFrames idx (installFrame job.jobID p s.currentTime)).length
    intro q hq
    rw [length_updateAt]
    by_cases halg : s.replacementAlgorithm = 1
    · rw [if_pos halg] at hq
      rcases List.mem_append.mp hq with hq | hq
      · exact hat.fifoBound q hq
      · rw [List.mem_singleton.mp hq]
        exact hidx
    · rw [if_neg halg] at hq
      exact hat.fifoBound q hq

theorem jobShape_evictJob_jobID (q : Int) (j : Job) : (evictJob q j).jobID = j.jobID := rfl

/-- A free target frame is not referenced by any page table, so a
well-formed state is well-formed-at that frame. -/
theorem wfat_of_free {s : DPState} {idx : Nat} (hwf : WF s) {f : PageFrame}
    (hf : s.memoryFrames[idx]? = some f) (hfree : f.isFree = true) : WFat s idx := by
  have hnoref : ∀ (k : Nat) (j : Job) (q fr : Int), s.jobs[k]? = some j →
      tableLookup j.pageTable q = some fr → fr ≠ (idx : Int) := by
    intro k j q fr hk hlk hc
    obtain ⟨fi, f1, hfr, hf1, hfree1, -, -⟩ := hwf.tableToFrame k j q fr hk hlk
    rw [hc] at hfr
    have hfi : fi = idx := Int.natCast_inj.mp hfr.symm
    subst hfi
    rw [hf] at hf1
    injection hf1 with hf1
    rw [← hf1] at hfree1
    rw [hfree1] at hfree
    exact Bool.noConfusion hfree
  exact ⟨hwf.frameIdx, hwf.jobsDistinct, hwf.loadedIff, hwf.tableToFrame,
    fun i f0 _ h1 h2 => hwf.frameToTable i f0 h1 h2, hwf.freeClean, hwf.fifoBound, hnoref⟩

/-- Evicting the occupied target frame's page from its owner detaches the
frame: the resulting state is well-formed-at that frame. -/
theorem wfat_of_evict {s : DPState} {idx : Nat} (hwf : WF s) {f : PageFrame}
    (hf : s.memoryFrames[idx]? = some f) (hocc : f.isFree = false) :
    WFat { s with jobs := evictOwner s.jobs f.jobID f.pageNumber } idx := by
  obtain ⟨k0, j0, hk0, hjid0, hlk0⟩ := hwf.frameToTable idx f hf hocc
  have huniq : ∀ (i j : Nat) (xi xj : Job), s.jobs[i]? = some xi → s.jobs[j]? = some xj →
      (xi.jobID == f.jobID) = true → (xj.jobID == f.jobID) = true → i = j := by
    intro i j xi xj hi hj hpi hpj
    by_contra hne
    exact hwf.jobsDistinct i j xi xj hi hj hne
      (by rw [beq_iff_eq.mp hpi, beq_iff_eq.mp hpj])
  have hpred0 : (j0.jobID == f.jobID) = true := beq_iff_eq.mpr hjid0
  obtain ⟨hEk0, hEne⟩ := updateFirst_unique s.jobs (fun j => j.jobID == f.jobID)
    (evictJob f.pageNumber) k0 j0 huniq hk0 hpred0
  have hget : ∀ (k : Nat), (evictOwner s.jobs f.jobID f.pageNumber)[k]? =
      if k = k0 then some (evictJob f.pageNumber j0) else s.jobs[k]? := by
    intro k
    by_cases hk : k = k0
    · rw [hk, if_pos rfl]
      exact hEk0
    · rw [if_neg hk]
      exact hEne k hk
  have htbl : ∀ (k : Nat) (j : Job) (q fr : Int),
      (evictOwner s.jobs f.jobID f.pageNumber)[k]? = some j →
      tableLookup j.pageTable q = some fr →
      ∃ j1, s.jobs[k]? = some j1 ∧ j1.jobID = j.jobID ∧
        tableLookup j1.pageTable q = some fr ∧ (k = k0 → q ≠ f.pageNumber) := by
    intro k j q fr hk hlk
    rw [hget k] at hk
    by_cases hkk : k = k0
    · rw [if_pos hkk] at hk
      injection hk with hk
      subst hk
      have hq : q ≠ f.pageNumber := by
        intro hc
        rw [show (evictJob f.pageNumber j0).pageTable =
          tableErase j0.pageTable f.pageNumber from rfl, hc, tableLookup_erase_self] at hlk
        exact Option.noConfusion hlk
      rw [show (evictJob f.pageNumber j0).pageTable =
        tableErase j0.pageTable f.pageNumber from rfl, tableLookup_erase_ne _ _ _ hq] at hlk
      exact ⟨j0, hkk ▸ hk0, rfl, hlk, fun _ => hq⟩
    · rw [if_neg hkk] at hk
      exact ⟨j, hk, rfl, hlk, fun hc => absurd hc hkk⟩
  have hnoref : ∀ (k : Nat) (j : Job) (q fr : Int),
      (evictOwner s.jobs f.jobID f.pageNumber)[k]? = some j →
      tableLookup j.pageTable q = some fr → fr ≠ (idx : Int) := by
    intro k j q fr hk hlk hc
    obtain ⟨j1, hj1, hjid1, hlk1, hqk⟩ := htbl k j q fr hk hlk
    obtain ⟨fi, f2, hfr, hf2, -, hfjid, hfpn⟩ := hwf.tableToFrame k j1 q fr hj1 hlk1
    rw [hc] at hfr
    have hfi : fi = idx := Int.natCast_inj.mp hfr.symm
    subst hfi
    rw [hf] at hf2
    injection hf2 with hf2
    subst hf2
    have hkk0 : k = k0 := huniq k k0 j1 j0 hj1 hk0 (beq_iff_eq.mpr hfjid.symm) hpred0
    exact hqk hkk0 hfpn.symm
  refine ⟨hwf.frameIdx, ?_, ?_, ?_, ?_, hwf.freeClean, hwf.fifoBound, hnoref⟩
  · -- jobsDistinct
    intro k1 k2 j1 j2 h1 h2 hne
    have hsh : ∀ (k : Nat), ((evictOwner s.jobs f.jobID f.pageNumber)[k]?).map Job.jobID =
        (s.jobs[k]?).map Job.jobID :=
      getElem?_updateFirst_shape Job.jobID s.jobs _ _ (fun x => rfl)
    obtain ⟨j1o, h1o, hs1⟩ := map_shape_some Job.jobID (hsh k1) h1
    obtain ⟨j2o, h2o, hs2⟩ := map_shape_some Job.jobID (hsh k2) h2
    rw [← hs1, ← hs2]
    exact hwf.jobsDistinct k1 k2 j1o j2o h1o h2o hne
  · -- loadedIff
    intro k j hk q
    rw [hget k] at hk
    by_cases hkk : k = k0
    · rw [if_pos hkk] at hk
      injection hk with hk
      subst hk
      show q ∈ setErase j0.loadedPages f.pageNumber ↔
        (tableLookup (tableErase j0.pageTable f.pageNumber) q).isSome = true
      by_cases hq : q = f.pageNumber
      · rw [hq, tableLookup_erase_self]
        simp [mem_setErase]
      · rw [tableLookup_erase_ne _ _ _ hq, mem_setErase]
        rw [← hwf.loadedIff k0 j0 hk0 q]
        simp [hq]
    · rw [if_neg hkk] at hk
      exact hwf.loadedIff k j hk q
  · -- tableToFrame
    intro k j q fr hk hlk
    obtain ⟨j1, hj1, hjid1, hlk1, -⟩ := htbl k j q fr hk hlk
    obtain ⟨fi, f2, hfr, hf2, hfree2, hfjid, hfpn⟩ := hwf.tableToFrame k j1 q fr hj1 hlk1
    exact ⟨fi, f2, hfr, hf2, hfree2, hjid1 ▸ hfjid, hfpn⟩
  · -- frameToTable away from idx
    intro i fI hi hfI hoccI
    obtain ⟨kI, jI, hkI, hjidI, hlkI⟩ := hwf.frameToTable i fI hfI hoccI
    by_cases hkk : kI = k0
    · rw [hkk, hk0] at hkI
      injection hkI with hkI
      subst hkI
      have hq : fI.pageNumber ≠ f.pageNumber := by
        intro hc
        rw [hc, hlk0] at hlkI
        injection hlkI with hlkI
        exact hi (Int.natCast_inj.mp hlkI).symm
      refine ⟨k0, evictJob f.pageNumber j0, by rw [hget k0, if_pos rfl], hjidI, ?_⟩
      show tableLookup (tableErase j0.pageTable f.pageNumber) fI.pageNumber = some (i : Int)
      rw [tableLookup_erase_ne _ _ _ hq]
      exact hlkI
    · exact ⟨kI, jI, by rw [hget kI, if_neg hkk]; exact hkI, hjidI, hlkI⟩

theorem fifoReplacement_nil {s : DPState} (hq : s.fifoQueue = []) :
    fifoReplacement s = (0, s) := by
  simp only [fifoReplacement, hq]

theorem fifoReplacement_cons {s : DPState} {h : Nat} {tl : List Nat}
    (hq : s.fifoQueue = h :: tl) :
    fifoReplacement s = (h, { s with fifoQueue := tl }) := by
  simp only [fifoReplacement, hq]

/-- Popping the FIFO queue preserves well-formedness. -/
theorem wf_fifo_pop {s : DPState} {h : Nat} {tl : List Nat}
    (hq : s.fifoQueue = h :: tl) (hwf : WF s) : WF { s with fifoQueue := tl } := by
  refine ⟨hwf.frameIdx, hwf.jobsDistinct, hwf.loadedIff, hwf.tableToFrame,
    hwf.frameToTable, hwf.freeClean, ?_⟩
  intro q hmem
  exact hwf.fifoBound q (by rw [hq]; exact List.mem_cons_of_mem h hmem)

/-- The evict-then-install step of the fault path preserves
well-formedness when the target job does not map the page yet. -/
theorem evictAt_install_wf {t2 : DPState} {k idx : Nat} {p : Int} {job1 : Job}
    (hwf2 : WF t2) (hk2 : t2.jobs[k]? = some job1)
    (hnew : tableLookup job1.pageTable p = none)
    (hidx2 : idx < t2.memoryFrames.length) :
    WF (installPage (evictAt t2 idx) k p idx) := by
  have hf : t2.memoryFrames[idx]? = some t2.memoryFrames[idx] := List.getElem?_eq_getElem hidx2
  by_cases hfree : t2.memoryFrames[idx].isFree = true
  · have hEA : evictAt t2 idx = t2 := by
      simp only [evictAt, hf, if_pos hfree]
    rw [hEA]
    exact installPage_wf (wfat_of_free hwf2 hf hfree) hk2 hnew hidx2
  · have hocc : t2.memoryFrames[idx].isFree = false := by simpa using hfree
    have hEA : evictAt t2 idx = { t2 with
        jobs := evictOwner t2.jobs t2.memoryFrames[idx].jobID t2.memoryFrames[idx].pageNumber } := by
      simp only [evictAt, hf, if_neg hfree]
    rw [hEA]
    have hat := wfat_of_evict hwf2 hf hocc
    rcases getElem?_updateFirst_cases t2.jobs
        (fun j => j.jobID == t2.memoryFrames[idx].jobID)
        (evictJob t2.memoryFrames[idx].pageNumber) k with hcase | ⟨hcase, -, -, -⟩
    · have hk2' : (evictOwner t2.jobs t2.memoryFrames[idx].jobID
          t2.memoryFrames[idx].pageNumber)[k]? = some job1 := by
        rw [show evictOwner t2.jobs t2.memoryFrames[idx].jobID t2.memoryFrames[idx].pageNumber =
          updateFirst t2.jobs (fun j => j.jobID == t2.memoryFrames[idx].jobID)
            (evictJob t2.memoryFrames[idx].pageNumber) from rfl, hcase]
        exact hk2
      exact installPage_wf hat hk2' hnew hidx2
    · have hk2' : (evictOwner t2.jobs t2.memoryFrames[idx].jobID
          t2.memoryFrames[idx].pageNumber)[k]? =
          some (evictJob t2.memoryFrames[idx].pageNumber job1) := by
        rw [show evictOwner t2.jobs t2.memoryFrames[idx].jobID t2.memoryFrames[idx].pageNumber =
          updateFirst t2.jobs (fun j => j.jobID == t2.memoryFrames[idx].jobID)
            (evictJob t2.memoryFrames[idx].pageNumber) from rfl, hcase, hk2]
        rfl
      have hnew' : tableLookup (evictJob t2.memoryFrames[idx].pageNumber job1).pageTable p =
          none := by
        show tableLookup (tableErase job1.pageTable t2.memoryFrames[idx].pageNumber) p = none
        by_cases hpp : p = t2.memoryFrames[idx].pageNumber
        · rw [hpp, tableLookup_erase_self]
        · rw [tableLookup_erase_ne _ _ _ hpp]
          exact hnew
      exact installPage_wf hat hk2' hnew' hidx2

/-- The whole fault tail of `loadPage` preserves well-formedness. -/
theorem chooseInstall_wf {t : DPState} {k : Nat} {p : Int} {job1 : Job}
    (hk : t.jobs[k]? = some job1) (hnew : tableLookup job1.pageTable p = none)
    (hwf : WF t) (hpos : 0 < t.memoryFrames.length) : WF (chooseInstall t k p) := by
  cases hff : findFreeFrame t.memoryFrames with
  | some idx =>
    have heq : chooseInstall t k p = installPage t k p idx := by
      simp only [chooseInstall, hff]
    rw [heq]
    obtain ⟨f, hf, hfree⟩ := findFreeFrame_some t.memoryFrames idx hff
    exact installPage_wf (wfat_of_free hwf hf hfree) hk hnew (getElem?_some_lt hf)
  | none =>
    have heq : chooseInstall t k p =
        installPage
          (evictAt (if t.replacementAlgorithm = 1 then fifoReplacement t
            else (lruReplacement t, t)).2
            (if t.replacementAlgorithm = 1 then fifoReplacement t
              else (lruReplacement t, t)).1) k p
          (if t.replacementAlgorithm = 1 then fifoReplacement t
            else (lruReplacement t, t)).1 := by
      simp only [chooseInstall, hff]
    rw [heq]
    by_cases halg : t.replacementAlgorithm = 1
    · rw [if_pos halg]
      cases hq : t.fifoQueue with
      | nil =>
        rw [fifoReplacement_nil hq]
        exact evictAt_install_wf hwf hk hnew hpos
      | cons hfq tl =>
        rw [fifoReplacement_cons hq]
        have hwf2 : WF { t with fifoQueue := tl } := wf_fifo_pop hq hwf
        have hb : hfq < t.memoryFrames.length :=
          hwf.fifoBound hfq (by rw [hq]; exact List.mem_cons_self hfq tl)
        exact evictAt_install_wf hwf2 hk hnew hb
    · rw [if_neg halg]
      exact evictAt_install_wf hwf hk hnew (lruReplacement_lt t hpos)

/-- `loadPage` preserves well-formedness. -/
theorem loadPage_wf (s : DPState) (k : Nat) (p : Int) (hwf : WF s)
    (hpos : 0 < s.memoryFrames.length) : WF (loadPage s k p) := by
  cases hjk : s.jobs[k]? with
  | none =>
    have heq : loadPage s k p = s := by simp only [loadPage, hjk]
    rw [heq]
    exact hwf
  | some job =>
    by_cases hmem : p ∈ job.loadedPages
    · have heq : loadPage s k p = { s with
          memoryFrames := updateFirst s.memoryFrames (hitPred job.jobID p)
            (touchFrame s.currentTime) } := by
        simp only [loadPage, hjk, if_pos hmem]
      rw [heq]
      exact @wf_frames_shape s _ rfl rfl (length_updateFirst _ _ _)
        (getElem?_updateFirst_shape frameShape _ _ _ (fun x => rfl)) hwf
    · have heq : loadPage s k p = chooseInstall { s with
          jobs := updateAt s.jobs k bumpFaults, currentTime := s.currentTime + 1 } k p := by
        simp only [loadPage, hjk, if_neg hmem]
      rw [heq]
      have hwf1 : WF { s with
          jobs := updateAt s.jobs k bumpFaults, currentTime := s.currentTime + 1 } :=
        @wf_jobs_shape s _ rfl rfl (getElem?_updateAt_shape jobShape s.jobs k bumpFaults
          (fun x => rfl)) hwf
      have hk1 : ({ s with
          jobs := updateAt s.jobs k bumpFaults,
          currentTime := s.currentTime + 1 } : DPState).jobs[k]? = some (bumpFaults job) := by
        show (updateAt s.jobs k bumpFaults)[k]? = some (bumpFaults job)
        rw [getElem?_updateAt_self, hjk]
        rfl
      have hnone : tableLookup (bumpFaults job).pageTable p = none := by
        show tableLookup job.pageTable p = none
        cases hlk : tableLookup job.pageTable p with
        | none => rfl
        | some fr =>
          exact absurd ((hwf.loadedIff k job hjk p).mpr (by rw [hlk]; rfl)) hmem
      exact chooseInstall_wf hk1 hnone hwf1 hpos

theorem mem_of_getElem?_some {l : List α} {i : Nat} {x : α} (h : l[i]? = some x) : x ∈ l := by
  rcases List.getElem?_eq_some.mp h with ⟨hlt, heq⟩
  exact heq ▸ List.getElem_mem hlt

theorem hitStamp_jobs (s : DPState) (jid pn : Int) : (hitStamp s jid pn).jobs = s.jobs := by
  by_cases h : s.memoryFrames.any (hitPred jid pn) = true
  · simp only [hitStamp]
    rw [if_pos h]
  · simp only [hitStamp]
    rw [if_neg h]

theorem hitStamp_frames_length (s : DPState) (jid pn : Int) :
    (hitStamp s jid pn).memoryFrames.length = s.memoryFrames.length := by
  by_cases h : s.memoryFrames.any (hitPred jid pn) = true
  · simp only [hitStamp]
    rw [if_pos h]
    exact length_updateFirst _ _ _
  · simp only [hitStamp]
    rw [if_neg h]

/-- The hit path of `resolveAddress` preserves well-formedness. -/
theorem hitStamp_wf (s : DPState) (jid pn : Int) (hwf : WF s) : WF (hitStamp s jid pn) := by
  by_cases h : s.memoryFrames.any (hitPred jid pn) = true
  · have heq : hitStamp s jid pn = { s with
        memoryFrames := updateFirst s.memoryFrames (hitPred jid pn) (touchFrame s.currentTime),
        currentTime := s.currentTime + 1 } := by
      simp only [hitStamp]
      rw [if_pos h]
    rw [heq]
    exact @wf_frames_shape s _ rfl rfl (length_updateFirst _ _ _)
      (getElem?_updateFirst_shape frameShape _ _ _ (fun x => rfl)) hwf
  · have heq : hitStamp s jid pn = s := by
      simp only [hitStamp]
      rw [if_neg h]
    rw [heq]
    exact hwf

theorem installPage_lookup {t3 : DPState} {k : Nat} {p : Int} (idx : Nat) {job3 : Job}
    (hk3 : t3.jobs[k]? = some job3) :
    ∃ j2, (installPage t3 k p idx).jobs[k]? = some j2 ∧
      (tableLookup j2.pageTable p).isSome = true ∧ jobMeta j2 = jobMeta job3 := by
  refine ⟨installJob p
    (frameIDAt (updateAt t3.memoryFrames idx (installFrame job3.jobID p t3.currentTime)) idx)
    job3, ?_, ?_, rfl⟩
  · show (installPage t3 k p idx).jobs[k]? = _
    simp only [installPage, hk3]
    show (updateAt t3.jobs k (installJob p _))[k]? = _
    rw [getElem?_updateAt_self, hk3]
    rfl
  · show (tableLookup (tableInsert job3.pageTable p _) p).isSome = true
    rw [tableLookup_insert_self]
    rfl

theorem installPage_frames_length (t3 : DPState) (k : Nat) (p : Int) (idx : Nat) :
    (installPage t3 k p idx).memoryFrames.length = t3.memoryFrames.length := by
  cases hk3 : t3.jobs[k]? with
  | none => simp only [installPage, hk3]
  | some job3 =>
    simp only [installPage, hk3]
    exact length_updateAt _ _ _

theorem evictAt_frames (t : DPState) (idx : Nat) :
    (evictAt t idx).memoryFrames = t.memoryFrames := by
  cases hfr : t.memoryFrames[idx]? with
  | none => simp only [evictAt, hfr]
  | some f =>
    simp only [evictAt, hfr]
    by_cases hfree : f.isFree = true
    · rw [if_pos hfree]
    · rw [if_neg hfree]

theorem evictAt_lookup {t : DPState} (idx : Nat) {k : Nat} {job1 : Job}
    (hk : t.jobs[k]? = some job1) :
    ∃ j2, (evictAt t idx).jobs[k]? = some j2 ∧ jobMeta j2 = jobMeta job1 := by
  cases hfr : t.memoryFrames[idx]? with
  | none => exact ⟨job1, by simp only [evictAt, hfr]; exact hk, rfl⟩
  | some f =>
    by_cases hfree : f.isFree = true
    · exact ⟨job1, by simp only [evictAt, hfr]; rw [if_pos hfree]; exact hk, rfl⟩
    · have heq : evictAt t idx =
          { t with jobs := evictOwner t.jobs f.jobID f.pageNumber } := by
        simp only [evictAt, hfr]
        rw [if_neg hfree]
      rcases getElem?_updateFirst_cases t.jobs (fun j => j.jobID == f.jobID)
          (evictJob f.pageNumber) k with hcase | ⟨hcase, -, -, -⟩
      · refine ⟨job1, ?_, rfl⟩
        rw [heq]
        show (updateFirst t.jobs _ _)[k]? = _
        rw [hcase]
        exact hk
      · refine ⟨evictJob f.pageNumber job1, ?_, rfl⟩
        rw [heq]
        show (updateFirst t.jobs _ _)[k]? = _
        rw [hcase, hk]
        rfl

/-- The second component of the replacement pick: the state after a
possible FIFO pop; its frames and jobs are those of the input. -/
theorem pick_state (t : DPState) :
    ((if t.replacementAlgorithm = 1 then fifoReplacement t
      else (lruReplacement t, t)).2).memoryFrames = t.memoryFrames ∧
    ((if t.replacementAlgorithm = 1 then fifoReplacement t
      else (lruReplacement t, t)).2).jobs = t.jobs := by
  by_cases halg : t.replacementAlgorithm = 1
  · rw [if_pos halg]
    cases hq : t.fifoQueue with
    | nil => rw [fifoReplacement_nil hq]; exact ⟨rfl, rfl⟩
    | cons h tl => rw [fifoReplacement_cons hq]; exact ⟨rfl, rfl⟩
  · rw [if_neg halg]
    exact ⟨rfl, rfl⟩

theorem chooseInstall_lookup {t : DPState} {k : Nat} {p : Int} {job1 : Job}
    (hk : t.jobs[k]? = some job1) :
    ∃ j2, (chooseInstall t k p).jobs[k]? = some j2 ∧
      (tableLookup j2.pageTable p).isSome = true ∧ jobMeta j2 = jobMeta job1 := by
  cases hff : findFreeFrame t.memoryFrames with
  | some idx =>
    have heq : chooseInstall t k p = installPage t k p idx := by
      simp only [chooseInstall, hff]
    rw [heq]
    exact installPage_lookup idx hk
  | none =>
    have heq : chooseInstall t k p =
        installPage
          (evictAt (if t.replacementAlgorithm = 1 then fifoReplacement t
            else (lruReplacement t, t)).2
            (if t.replacementAlgorithm = 1 then fifoReplacement t
              else (lruReplacement t, t)).1) k p
          (if t.replacementAlgorithm = 1 then fifoReplacement t
            else (lruReplacement t, t)).1 := by
      simp only [chooseInstall, hff]
    rw [heq]
    have hk2 : ((if t.replacementAlgorithm = 1 then fifoReplacement t
        else (lruReplacement t, t)).2).jobs[k]? = some job1 := by
      rw [(pick_state t).2]
      exact hk
    obtain ⟨j2, hj2, hm2⟩ := evictAt_lookup _ hk2
    obtain ⟨j3, hj3, hs3, hm3⟩ := installPage_lookup _ hj2
    exact ⟨j3, hj3, hs3, hm3.trans hm2⟩

theorem chooseInstall_frames_length (t : DPState) (k : Nat) (p : Int) :
    (chooseInstall t k p).memoryFrames.length = t.memoryFrames.length := by
  cases hff : findFreeFrame t.memoryFrames with
  | some idx =>
    have heq : chooseInstall t k p = installPage t k p idx := by
      simp only [chooseInstall, hff]
    rw [heq, installPage_frames_length]
  | none =>
    have heq : chooseInstall t k p =
        installPage
          (evictAt (if t.replacementAlgorithm = 1 then fifoReplacement t
            else (lruReplacement t, t)).2
            (if t.replacementAlgorithm = 1 then fifoReplacement t
              else (lruReplacement t, t)).1) k p
          (if t.replacementAlgorithm = 1 then fifoReplacement t
            else (lruReplacement t, t)).1 := by
      simp only [chooseInstall, hff]
    rw [heq, installPage_frames_length, evictAt_frames, (pick_state t).1]

theorem loadPage_frames_length (s : DPState) (k : Nat) (p : Int) :
    (loadPage s k p).memoryFrames.length = s.memoryFrames.length := by
  cases hjk : s.jobs[k]? with
  | none => simp only [loadPage, hjk]
  | some job =>
    by_cases hmem : p ∈ job.loadedPages
    · have heq : loadPage s k p = { s with
          memoryFrames := updateFirst s.memoryFrames (hitPred job.jobID p)
            (touchFrame s.currentTime) } := by
        simp only [loadPage, hjk, if_pos hmem]
      rw [heq]
      exact length_updateFirst _ _ _
    · have heq : loadPage s k p = chooseInstall { s with
          jobs := updateAt s.jobs k bumpFaults, currentTime := s.currentTime + 1 } k p := by
        simp only [loadPage, hjk, if_neg hmem]
      rw [heq, chooseInstall_frames_length]

/-- After a `loadPage` call on a valid job index, the page is mapped in
that job's table (the guarantee stated in the design). -/
theorem loadPage_lookup {s : DPState} {k : Nat} {p : Int} {job : Job}
    (hjk : s.jobs[k]? = some job) (hwf : WF s) :
    ∃ job2, (loadPage s k p).jobs[k]? = some job2 ∧
      (tableLookup job2.pageTable p).isSome = true ∧ jobMeta job2 = jobMeta job := by
  by_cases hmem : p ∈ job.loadedPages
  · have heq : loadPage s k p = { s with
        memoryFrames := updateFirst s.memoryFrames (hitPred job.jobID p)
          (touchFrame s.currentTime) } := by
      simp only [loadPage, hjk, if_pos hmem]
    rw [heq]
    exact ⟨job, hjk, (hwf.loadedIff k job hjk p).mp hmem, rfl⟩
  · have heq : loadPage s k p = chooseInstall { s with
        jobs := updateAt s.jobs k bumpFaults, currentTime := s.currentTime + 1 } k p := by
      simp only [loadPage, hjk, if_neg hmem]
    rw [heq]
    have hk1 : ({ s with
        jobs := updateAt s.jobs k bumpFaults,
        currentTime := s.currentTime + 1 } : DPState).jobs[k]? = some (bumpFaults job) := by
      show (updateAt s.jobs k bumpFaults)[k]? = some (bumpFaults job)
      rw [getElem?_updateAt_self, hjk]
      rfl
    obtain ⟨j2, h1, h2, h3⟩ := chooseInstall_lookup hk1
    exact ⟨j2, h1, h2, h3⟩

theorem finishResolve_of_lookup {s1 : DPState} {k : Nat} {pn off : Int} {job1 : Job}
    {fr : Int} (h1 : s1.jobs[k]? = some job1)
    (h2 : tableLookup job1.pageTable pn = some fr) :
    finishResolve s1 k pn off = (s1, some (fr * job1.pageSize + off, fr, off)) := by
  simp only [finishResolve, h1, h2]

/-- `resolveAddress` preserves well-formedness, and it never takes the
default-inserting `operator[]` branch from a well-formed state. -/
theorem resolveAddress_wf (s : DPState) (k : Nat) (addr : Int) (hwf : WF s)
    (hpos : 0 < s.memoryFrames.length) : WF (resolveAddress s k addr).1 := by
  cases hjk : s.jobs[k]? with
  | none =>
    have heq : resolveAddress s k addr = (s, none) := by simp only [resolveAddress, hjk]
    rw [heq]
    exact hwf
  | some job =>
    by_cases hbound : addr.tdiv job.pageSize < 0 ∨
        (job.pages.length : Int) ≤ addr.tdiv job.pageSize
    · have heq : resolveAddress s k addr = (s, none) := by
        simp only [resolveAddress, hjk]
        rw [if_pos hbound]
      rw [heq]
      exact hwf
    · by_cases hmem : addr.tdiv job.pageSize ∈ job.loadedPages
      · have heq : resolveAddress s k addr =
            finishResolve (hitStamp s job.jobID (addr.tdiv job.pageSize)) k
              (addr.tdiv job.pageSize) (addr.tmod job.pageSize) := by
          simp only [resolveAddress, hjk]
          rw [if_neg hbound, if_pos hmem]
        have hk1 : (hitStamp s job.jobID (addr.tdiv job.pageSize)).jobs[k]? = some job := by
          rw [hitStamp_jobs]
          exact hjk
        obtain ⟨fr, hfr⟩ := Option.isSome_iff_exists.mp
          ((hwf.loadedIff k job hjk (addr.tdiv job.pageSize)).mp hmem)
        rw [heq, finishResolve_of_lookup hk1 hfr]
        exact hitStamp_wf s job.jobID (addr.tdiv job.pageSize) hwf
      · have heq : resolveAddress s k addr =
            finishResolve (loadPage s k (addr.tdiv job.pageSize)) k
              (addr.tdiv job.pageSize) (addr.tmod job.pageSize) := by
          simp only [resolveAddress, hjk]
          rw [if_neg hbound, if_neg hmem]
        obtain ⟨job2, hjk2, hsome2, -⟩ := loadPage_lookup (p := addr.tdiv job.pageSize) hjk hwf
        obtain ⟨fr, hfr⟩ := Option.isSome_iff_exists.mp hsome2
        rw [heq, finishResolve_of_lookup hjk2 hfr]
        exact loadPage_wf s k (addr.tdiv job.pageSize) hwf hpos

theorem resolveAddress_frames_length (s : DPState) (k : Nat) (addr : Int)
    (hwf : WF s) : (resolveAddress s k addr).1.memoryFrames.length =
      s.memoryFrames.length := by
  cases hjk : s.jobs[k]? with
  | none =>
    have heq : resolveAddress s k addr = (s, none) := by simp only [resolveAddress, hjk]
    rw [heq]
  | some job =>
    by_cases hbound : addr.tdiv job.pageSize < 0 ∨
        (job.pages.length : Int) ≤ addr.tdiv job.pageSize
    · have heq : resolveAddress s k addr = (s, none) := by
        simp only [resolveAddress, hjk]
        rw [if_pos hbound]
      rw [heq]
    · by_cases hmem : addr.tdiv job.pageSize ∈ job.loadedPages
      · have heq : resolveAddress s k addr =
            finishResolve (hitStamp s job.jobID (addr.tdiv job.pageSize)) k
              (addr.tdiv job.pageSize) (addr.tmod job.pageSize) := by
          simp only [resolveAddress, hjk]
          rw [if_neg hbound, if_pos hmem]
        have hk1 : (hitStamp s job.jobID (addr.tdiv job.pageSize)).jobs[k]? = some job := by
          rw [hitStamp_jobs]
          exact hjk
        obtain ⟨fr, hfr⟩ := Option.isSome_iff_exists.mp
          ((hwf.loadedIff k job hjk (addr.tdiv job.pageSize)).mp hmem)
        rw [heq, finishResolve_of_lookup hk1 hfr]
        exact hitStamp_frames_length s job.jobID (addr.tdiv job.pageSize)
      · have heq : resolveAddress s k addr =
            finishResolve (loadPage s k (addr.tdiv job.pageSize)) k
              (addr.tdiv job.pageSize) (addr.tmod job.pageSize) := by
          simp only [resolveAddress, hjk]
          rw [if_neg hbound, if_neg hmem]
        obtain ⟨job2, hjk2, hsome2, -⟩ := loadPage_lookup (p := addr.tdiv job.pageSize) hjk hwf
        obtain ⟨fr, hfr⟩ := Option.isSome_iff_exists.mp hsome2
        rw [heq, finishResolve_of_lookup hjk2 hfr]
        exact loadPage_frames_length s k (addr.tdiv job.pageSize)

/-- `initFrames` establishes well-formedness over jobs with empty tables
and pairwise-distinct IDs. -/
theorem initFrames_wf (s : DPState) (n : Nat) (fs : Int)
    (hjobs : ∀ j ∈ s.jobs, j.pageTable = [] ∧ j.loadedPages = [])
    (hdist : s.jobs.Pairwise (fun a b => a.jobID ≠ b.jobID)) :
    WF (initFrames s n fs) := by
  constructor
  · show ∀ (i : Nat) (f : PageFrame), (mkFrames n fs)[i]? = some f → f.frameID = (i : Int)
    intro i f h
    rw [getElem?_mkFrames] at h
    by_cases hi : i < n
    · rw [if_pos hi] at h
      injection h with h
      rw [← h]
      rfl
    · rw [if_neg hi] at h
      exact Option.noConfusion h
  · show ∀ (k1 k2 : Nat) (j1 j2 : Job), s.jobs[k1]? = some j1 → s.jobs[k2]? = some j2 →
      k1 ≠ k2 → j1.jobID ≠ j2.jobID
    intro k1 k2 j1 j2 h1 h2 hne
    rcases List.getElem?_eq_some.mp h1 with ⟨hl1, he1⟩
    rcases List.getElem?_eq_some.mp h2 with ⟨hl2, he2⟩
    rcases Nat.lt_or_ge k1 k2 with hlt | hge
    · have := List.pairwise_iff_getElem.mp hdist k1 k2 hl1 hl2 hlt
      rw [he1, he2] at this
      exact this
    · have hlt2 : k2 < k1 := Nat.lt_of_le_of_ne hge (fun hc => hne hc.symm)
      have := List.pairwise_iff_getElem.mp hdist k2 k1 hl2 hl1 hlt2
      rw [he1, he2] at this
      exact fun hc => this hc.symm
  · show ∀ (k : Nat) (j : Job), s.jobs[k]? = some j →
      ∀ p, p ∈ j.loadedPages ↔ (tableLookup j.pageTable p).isSome = true
    intro k j hk p
    obtain ⟨hpt, hlp⟩ := hjobs j (mem_of_getElem?_some hk)
    rw [hpt, hlp]
    simp [tableLookup]
  · show ∀ (k : Nat) (j : Job) (p fr : Int), s.jobs[k]? = some j →
      tableLookup j.pageTable p = some fr → _
    intro k j p fr hk hlk
    obtain ⟨hpt, -⟩ := hjobs j (mem_of_getElem?_some hk)
    rw [hpt] at hlk
    exact Option.noConfusion hlk
  · show ∀ (i : Nat) (f : PageFrame), (mkFrames n fs)[i]? = some f → f.isFree = false → _
    intro i f h hfree
    rw [getElem?_mkFrames] at h
    by_cases hi : i < n
    · rw [if_pos hi] at h
      injection h with h
      rw [← h] at hfree
      exact Bool.noConfusion hfree
    · rw [if_neg hi] at h
      exact Option.noConfusion h
  · show ∀ (i : Nat) (f : PageFrame), (mkFrames n fs)[i]? = some f → f.isFree = true →
      f.jobID = -1 ∧ f.pageNumber = -1
    intro i f h _
    rw [getElem?_mkFrames] at h
    by_cases hi : i < n
    · rw [if_pos hi] at h
      injection h with h
      rw [← h]
      exact ⟨rfl, rfl⟩
    · rw [if_neg hi] at h
      exact Option.noConfusion h
  · show ∀ q ∈ ([] : List Nat), q < (mkFrames n fs).length
    intro q hq
    exact absurd hq (List.not_mem_nil q)

/-- Switching the replacement policy does not affect well-formedness. -/
theorem setAlgo_wf (s : DPState) (a : Int) (hwf : WF s) :
    WF { s with replacementAlgorithm := a } :=
  ⟨hwf.frameIdx, hwf.jobsDistinct, hwf.loadedIff, hwf.tableToFrame, hwf.frameToTable,
    hwf.freeClean, hwf.fifoBound⟩

/-- Every reachable state of the demand-paging simulator is well-formed
and has a nonempty frame table. -/
theorem reach_wf {s : DPState} (hr : Reach s) : WF s ∧ 0 < s.memoryFrames.length := by
  induction hr with
  | init n fs algo js hn hjs hdist =>
    refine ⟨initFrames_wf ⟨[], 0, [], algo, js⟩ n fs hjs hdist, ?_⟩
    show 0 < (mkFrames n fs).length
    rw [length_mkFrames]
    exact hn
  | load s k p hr ih =>
    refine ⟨loadPage_wf s k p ih.1 ih.2, ?_⟩
    rw [loadPage_frames_length]
    exact ih.2
  | resolve s k a hr ih =>
    refine ⟨resolveAddress_wf s k a ih.1 ih.2, ?_⟩
    rw [resolveAddress_frames_length s k a ih.1]
    exact ih.2
  | setAlgo s a hr ih =>
    exact ⟨setAlgo_wf s a ih.1, ih.2⟩

end DP

end PagingSim

namespace PagingSim

namespace DP

theorem getElem?_mkFrames_some {n : Nat} {fs : Int} {i : Nat} {f : PageFrame}
    (h : (mkFrames n fs)[i]? = some f) : f = mkFrame i fs := by
  rw [getElem?_mkFrames] at h
  by_cases hi : i < n
  · rw [if_pos hi] at h
    injection h with h
    exact h.symm
  · rw [if_neg hi] at h
    exact Option.noConfusion h

/-- A fresh `initFrames` state satisfies the claimed invariants as soon as
the jobs carry empty tables — no uniqueness of job IDs is needed for the
claimed invariants to hold initially. -/
theorem initFrames_claimedInv_fresh (s : DPState) (n : Nat) (fs : Int)
    (hjobs : ∀ j ∈ s.jobs, j.pageTable = [] ∧ j.loadedPages = []) :
    ClaimedInv (initFrames s n fs) := by
  constructor
  · show ∀ (i : Nat) (f : PageFrame), (mkFrames n fs)[i]? = some f → f.isFree = true →
      f.jobID = -1 ∧ f.pageNumber = -1
    intro i f h _
    rw [getElem?_mkFrames_some h]
    exact ⟨rfl, rfl⟩
  · show ∀ (i1 i2 : Nat) (f1 f2 : PageFrame), (mkFrames n fs)[i1]? = some f1 →
      (mkFrames n fs)[i2]? = some f2 → f1.isFree = false → _
    intro i1 i2 f1 f2 h1 h2 hocc1 _ _ _
    rw [getElem?_mkFrames_some h1] at hocc1
    exact Bool.noConfusion hocc1
  · show ∀ (k : Nat) (j : Job), s.jobs[k]? = some j →
      ∀ p, p ∈ j.loadedPages ↔ (tableLookup j.pageTable p).isSome = true
    intro k j hk p
    obtain ⟨hpt, hlp⟩ := hjobs j (mem_of_getElem?_some hk)
    rw [hpt, hlp]
    simp [tableLookup]

/-- `initFrames` preserves the claimed invariants of any state: the new
frames are all free and carry the `-1` sentinels, and the jobs are
untouched. -/
theorem initFrames_claimedInv (s : DPState) (n : Nat) (fs : Int)
    (h : ClaimedInv s) : ClaimedInv (initFrames s n fs) := by
  constructor
  · show ∀ (i : Nat) (f : PageFrame), (mkFrames n fs)[i]? = some f → f.isFree = true →
      f.jobID = -1 ∧ f.pageNumber = -1
    intro i f hf _
    rw [getElem?_mkFrames_some hf]
    exact ⟨rfl, rfl⟩
  · show ∀ (i1 i2 : Nat) (f1 f2 : PageFrame), (mkFrames n fs)[i1]? = some f1 →
      (mkFrames n fs)[i2]? = some f2 → f1.isFree = false → _
    intro i1 i2 f1 f2 h1 h2 hocc1 _ _ _
    rw [getElem?_mkFrames_some h1] at hocc1
    exact Bool.noConfusion hocc1
  · exact h.tableKeys

/-- Claim C1: in demand_paging_sim.cpp, `resolveAddress` only checks
`pageNumber >= pages.size()`, never `logicalAddress < 0` or
`logicalAddress >= jobSize`.  For a 1000-byte job with 512-byte pages, the
out-of-bounds address 1010 (the menu itself prints the valid range
0..999) is accepted: it demand-loads page 1, increments the job's fault
count and the clock, and returns a physical address; address -1 is
likewise accepted with offset -1.  The event-driven variant rejects both
with `OutOfBounds`. -/
theorem c1_dp_accepts_out_of_bounds_address :
    exJobC1.jobSize = 1000 ∧ exJobC1.pages.length = 2 ∧
    (resolveAddress exStC1 0 1010).2 = some (498, 0, 498) ∧
    (resolveAddress exStC1 0 1010).1.jobs.map Job.pageFaults = [1] ∧
    exStC1.jobs.map Job.pageFaults = [0] ∧
    (resolveAddress exStC1 0 1010).1.currentTime = 1 ∧ exStC1.currentTime = 0 ∧
    (resolveAddress exStC1 0 (-1)).2 = some (-1, 0, -1) ∧
    (resolveAddress exStC1 0 (-1)).1.jobs.map Job.pageFaults = [1] ∧
    EV.resolveAddress EV.exFramesEV EV.exJobEV 1010 = EV.ResolveResult.outOfBounds ∧
    EV.resolveAddress EV.exFramesEV EV.exJobEV (-1) = EV.ResolveResult.outOfBounds := by
  decide

/-- Claim C2: under LRU with two frames starting empty at clock 0, the
reference string A, B, A, C (pages 0, 1, 0, 2) evicts page A (page 0) at
the fourth access, not page B: the hit on A re-stamps frame 0 with the
unadvanced clock, leaving A and B tied, and the scan breaks the tie at
the lowest index — frame 0, which holds A.  The final state has page 2 in
frame 0, page 1 still resident, and page 0 evicted. -/
theorem c2_lru_evicts_most_recent_page :
    exStC2.replacementAlgorithm = 2 ∧
    exStC2d.memoryFrames.map (fun f => (f.frameID, f.jobID, f.pageNumber, f.accessTime)) =
      [(0, 7, 2, 3), (1, 7, 1, 2)] ∧
    (exStC2d.jobs[0]?).map (fun j =>
      (decide ((0 : Int) ∈ j.loadedPages), decide ((1 : Int) ∈ j.loadedPages),
        decide ((2 : Int) ∈ j.loadedPages), j.pageFaults)) =
      some (false, true, true, 3) := by
  decide

/-- Claim C4 counterexample: the CSV import does not reject duplicate job
IDs, and with two jobs sharing ID 5 the claimed invariants are violated:
from a fresh two-frame state satisfying them, loading page 1 of each job
puts the pair (5, 1) into two distinct frames at once. -/
theorem dp_invariants_counterexample :
    ClaimedInv exStDup ∧ ¬ ClaimedInv (loadPage (loadPage exStDup 1 1) 0 1) := by
  refine ⟨initFrames_claimedInv_fresh ⟨[], 0, [], 2, [exJobDup, exJobDup]⟩ 2 512
    (by decide), ?_⟩
  intro h
  have h0 : (loadPage (loadPage exStDup 1 1) 0 1).memoryFrames[0]? =
      some ⟨0, 512, false, 5, 1, 1, false, true⟩ := by decide
  have h1 : (loadPage (loadPage exStDup 1 1) 0 1).memoryFrames[1]? =
      some ⟨1, 512, false, 5, 1, 2, false, true⟩ := by decide
  have h01 := h.pairUnique 0 1 _ _ h0 h1 rfl rfl rfl rfl
  exact absurd h01 (by decide)

/-- Claim C4 (amended): provided the jobs carry pairwise-distinct IDs,
every operation of the demand-paging simulator preserves the data-model
invariants.  `initFrames` preserves the claimed invariants of any state
and establishes the strengthened invariant `WF` on freshly imported jobs;
`loadPage` and `resolveAddress` preserve `WF`; `WF` implies the claimed
invariants; hence every reachable state satisfies them. -/
theorem dp_operations_preserve_invariants :
    (∀ (s : DPState) (n : Nat) (fs : Int), ClaimedInv s → ClaimedInv (initFrames s n fs)) ∧
    (∀ (s : DPState) (k : Nat) (p : Int), WF s → 0 < s.memoryFrames.length →
      WF (loadPage s k p) ∧ ClaimedInv (loadPage s k p)) ∧
    (∀ (s : DPState) (k : Nat) (a : Int), WF s → 0 < s.memoryFrames.length →
      WF (resolveAddress s k a).1 ∧ ClaimedInv (resolveAddress s k a).1) ∧
    (∀ (s : DPState), WF s → ClaimedInv s) ∧
    (∀ (s : DPState), Reach s → ClaimedInv s) := by
  refine ⟨initFrames_claimedInv, ?_, ?_, fun s hwf => wf_claimedInv hwf,
    fun s hr => wf_claimedInv (reach_wf hr).1⟩
  · intro s k p hwf hpos
    exact ⟨loadPage_wf s k p hwf hpos, wf_claimedInv (loadPage_wf s k p hwf hpos)⟩
  · intro s k a hwf hpos
    exact ⟨resolveAddress_wf s k a hwf hpos, wf_claimedInv (resolveAddress_wf s k a hwf hpos)⟩

/-- Witness for the amended claim C4 at a concrete run: initialization
with one job followed by a `loadPage` yields a state satisfying the
claimed invariants. -/
theorem dp_operations_preserve_invariants_witness :
    ClaimedInv (loadPage exStC1 0 0) :=
  dp_operations_preserve_invariants.2.2.2.2 (loadPage exStC1 0 0)
    (Reach.load exStC1 0 0
      (Reach.init 8 512 2 [exJobC1] (by decide) (by decide) (by decide)))

theorem jobMeta_fields {j j' : Job} (h : jobMeta j = jobMeta j') :
    j.jobID = j'.jobID ∧ j.jobSize = j'.jobSize ∧ j.pageSize = j'.pageSize ∧
      j.pages = j'.pages := by
  simpa [jobMeta, Prod.ext_iff] using h

theorem installPage_time (t3 : DPState) (k : Nat) (p : Int) (idx : Nat) :
    (installPage t3 k p idx).currentTime = t3.currentTime := by
  cases hk3 : t3.jobs[k]? <;> simp only [installPage, hk3]

theorem evictAt_time (t : DPState) (idx : Nat) :
    (evictAt t idx).currentTime = t.currentTime := by
  cases hfr : t.memoryFrames[idx]? with
  | none => simp only [evictAt, hfr]
  | some f =>
    simp only [evictAt, hfr]
    by_cases hfree : f.isFree = true
    · rw [if_pos hfree]
    · rw [if_neg hfree]

theorem pick_time (t : DPState) :
    ((if t.replacementAlgorithm = 1 then fifoReplacement t
      else (lruReplacement t, t)).2).currentTime = t.currentTime := by
  by_cases halg : t.replacementAlgorithm = 1
  · rw [if_pos halg]
    cases hq : t.fifoQueue with
    | nil => rw [fifoReplacement_nil hq]
    | cons h tl => rw [fifoReplacement_cons hq]
  · rw [if_neg halg]

theorem chooseInstall_time (t : DPState) (k : Nat) (p : Int) :
    (chooseInstall t k p).currentTime = t.currentTime := by
  cases hff : findFreeFrame t.memoryFrames with
  | some idx =>
    have heq : chooseInstall t k p = installPage t k p idx := by
      simp only [chooseInstall, hff]
    rw [heq, installPage_time]
  | none =>
    have heq : chooseInstall t k p =
        installPage
          (evictAt (if t.replacementAlgorithm = 1 then fifoReplacement t
            else (lruReplacement t, t)).2
            (if t.replacementAlgorithm = 1 then fifoReplacement t
              else (lruReplacement t, t)).1) k p
          (if t.replacementAlgorithm = 1 then fifoReplacement t
            else (lruReplacement t, t)).1 := by
      simp only [chooseInstall, hff]
    rw [heq, installPage_time, evictAt_time, pick_time]

theorem finishResolve_time (s1 : DPState) (k : Nat) (pn off : Int) :
    (finishResolve s1 k pn off).1.currentTime = s1.currentTime := by
  cases hjk : s1.jobs[k]? with
  | none => simp only [finishResolve, hjk]
  | some job1 =>
    cases hlk : tableLookup job1.pageTable pn with
    | none => simp only [finishResolve, hjk, hlk]
    | some fr => simp only [finishResolve, hjk, hlk]

theorem hitStamp_time_of_any {s : DPState} {jid pn : Int}
    (hany : s.memoryFrames.any (hitPred jid pn) = true) :
    (hitStamp s jid pn).currentTime = s.currentTime + 1 := by
  simp only [hitStamp]
  rw [if_pos hany]

end DP

open DP EV in
/-- Claim C9: for every successfully resolved logical address the
physical address is exactly `frameID * frameSize + offset` with
`offset = logicalAddress mod pageSize` (C++ truncating `mod`).  In the
event-driven variant `frameSize` is read from the mapped frame and the
formula holds unconditionally; in the demand-paging variant the code
multiplies by `job.pageSize`, so the frame-size form holds whenever the
mapped frame's size equals the job's page size (both programs construct
all frames and jobs with the same constant 512). -/
theorem physical_address_formula :
    (∀ (frames : List EV.PageFrame) (job : EV.Job) (addr phys fr off : Int),
      EV.resolveAddress frames job addr = EV.ResolveResult.ok phys fr off →
      off = addr.tmod job.pageSize ∧
      ∃ (fi : Nat) (f : EV.PageFrame), fr = (fi : Int) ∧ frames[fi]? = some f ∧
        off < f.frameSize ∧ phys = fr * f.frameSize + off) ∧
    (∀ (s : DPState) (k : Nat) (addr : Int) (job : DP.Job) (s' : DPState)
      (phys fr off : Int), DP.WF s → 0 < s.memoryFrames.length →
      s.jobs[k]? = some job →
      DP.resolveAddress s k addr = (s', some (phys, fr, off)) →
      off = addr.tmod job.pageSize ∧ phys = fr * job.pageSize + off ∧
      ∃ (fi : Nat) (f : DP.PageFrame), fr = (fi : Int) ∧ s'.memoryFrames[fi]? = some f ∧
        f.jobID = job.jobID ∧
        (f.frameSize = job.pageSize → phys = fr * f.frameSize + off)) := by
  constructor
  · intro frames job addr phys fr off h
    by_cases hps : job.pageSize ≤ 0
    · simp only [EV.resolveAddress] at h
      rw [if_pos hps] at h
      exact ResolveResult.noConfusion h
    · by_cases hb : addr < 0 ∨ job.jobSize ≤ addr
      · simp only [EV.resolveAddress] at h
        rw [if_neg hps, if_pos hb] at h
        exact ResolveResult.noConfusion h
      · simp only [EV.resolveAddress] at h
        rw [if_neg hps, if_neg hb] at h
        cases hlk : tableLookup job.pageTable (addr.tdiv job.pageSize) with
        | none =>
          rw [hlk] at h
          exact ResolveResult.noConfusion h
        | some fn =>
          rw [hlk] at h
          have h2 : (if fn < 0 ∨ (frames.length : Int) ≤ fn then
              ResolveResult.invalidFrameNumber
            else
              match frames[fn.toNat]? with
              | none => ResolveResult.invalidFrameNumber
              | some f =>
                if f.frameSize ≤ addr.tmod job.pageSize then ResolveResult.invalidOffset
                else ResolveResult.ok (fn * f.frameSize + addr.tmod job.pageSize) fn
                  (addr.tmod job.pageSize)) = ResolveResult.ok phys fr off := h
          by_cases hfb : fn < 0 ∨ (frames.length : Int) ≤ fn
          · rw [if_pos hfb] at h2
            exact ResolveResult.noConfusion h2
          · rw [if_neg hfb] at h2
            cases hfr : frames[fn.toNat]? with
            | none =>
              rw [hfr] at h2
              exact ResolveResult.noConfusion h2
            | some f =>
              rw [hfr] at h2
              have h3 : (if f.frameSize ≤ addr.tmod job.pageSize then
                  ResolveResult.invalidOffset
                else ResolveResult.ok (fn * f.frameSize + addr.tmod job.pageSize) fn
                  (addr.tmod job.pageSize)) = ResolveResult.ok phys fr off := h2
              by_cases hoff : f.frameSize ≤ addr.tmod job.pageSize
              · rw [if_pos hoff] at h3
                exact ResolveResult.noConfusion h3
              · rw [if_neg hoff] at h3
                injection h3 with h1 h2n h3n
                refine ⟨h3n.symm, fn.toNat, f, ?_, hfr, ?_, ?_⟩
                · rw [Int.toNat_of_nonneg (by omega), h2n]
                · rw [← h3n]
                  omega
                · rw [← h1, h2n, h3n]
  · intro s k addr job s' phys fr off hwf hpos hjk hres
    by_cases hbound : addr.tdiv job.pageSize < 0 ∨
        (job.pages.length : Int) ≤ addr.tdiv job.pageSize
    · have heq : DP.resolveAddress s k addr = (s, none) := by
        simp only [DP.resolveAddress, hjk]
        rw [if_pos hbound]
      rw [heq] at hres
      exact Option.noConfusion (congrArg Prod.snd hres)
    · have hmain : ∀ (s1 : DPState) (job1 : DP.Job), WF s1 →
          s1.jobs[k]? = some job1 → jobMeta job1 = jobMeta job →
          finishResolve s1 k (addr.tdiv job.pageSize) (addr.tmod job.pageSize) =
            (s', some (phys, fr, off)) →
          (tableLookup job1.pageTable (addr.tdiv job.pageSize)).isSome = true →
          off = addr.tmod job.pageSize ∧ phys = fr * job.pageSize + off ∧
          ∃ (fi : Nat) (f : DP.PageFrame), fr = (fi : Int) ∧
            s'.memoryFrames[fi]? = some f ∧ f.jobID = job.jobID ∧
            (f.frameSize = job.pageSize → phys = fr * f.frameSize + off) := by
        intro s1 job1 hwf1 hjk1 hmeta hfin hsome1
        obtain ⟨hid1, -, hps1, -⟩ := jobMeta_fields hmeta
        obtain ⟨frX, hfrX⟩ := Option.isSome_iff_exists.mp hsome1
        rw [finishResolve_of_lookup hjk1 hfrX] at hfin
        have hs1 : s1 = s' := congrArg Prod.fst hfin
        have hsnd := congrArg Prod.snd hfin
        injection hsnd with hsnd
        injection hsnd with hphys hsnd
        injection hsnd with hfr0 hoff0
        obtain ⟨fi, f, hfi, hf, -, hfjid, -⟩ :=
          hwf1.tableToFrame k job1 (addr.tdiv job.pageSize) frX hjk1 hfrX
        refine ⟨hoff0.symm, ?_, fi, f, ?_, ?_, ?_, ?_⟩
        · rw [← hphys, hfr0, hoff0, hps1]
        · rw [← hfr0]
          exact hfi
        · rw [← hs1]
          exact hf
        · rw [hfjid]
          exact hid1
        · intro hfs
          rw [← hphys, hfr0, hoff0, hps1, ← hfs]
      by_cases hmem : addr.tdiv job.pageSize ∈ job.loadedPages
      · have heq : DP.resolveAddress s k addr =
            finishResolve (hitStamp s job.jobID (addr.tdiv job.pageSize)) k
              (addr.tdiv job.pageSize) (addr.tmod job.pageSize) := by
          simp only [DP.resolveAddress, hjk]
          rw [if_neg hbound, if_pos hmem]
        rw [heq] at hres
        have hk1 : (hitStamp s job.jobID (addr.tdiv job.pageSize)).jobs[k]? = some job := by
          rw [hitStamp_jobs]
          exact hjk
        exact hmain _ job (hitStamp_wf s _ _ hwf) hk1 rfl hres
          ((hwf.loadedIff k job hjk (addr.tdiv job.pageSize)).mp hmem)
      · have heq : DP.resolveAddress s k addr =
            finishResolve (loadPage s k (addr.tdiv job.pageSize)) k
              (addr.tdiv job.pageSize) (addr.tmod job.pageSize) := by
          simp only [DP.resolveAddress, hjk]
          rw [if_neg hbound, if_neg hmem]
        rw [heq] at hres
        obtain ⟨job2, hjk2, hsome2, hmeta2⟩ :=
          loadPage_lookup (p := addr.tdiv job.pageSize) hjk hwf
        exact hmain _ job2 (loadPage_wf s k (addr.tdiv job.pageSize) hwf hpos) hjk2
          hmeta2 hres hsome2

/-- Witness for claim C9: a resolved address in each variant satisfies the
offset identity from the theorem. -/
theorem physical_address_formula_witness :
    (100 : Int) = Int.tmod 100 EV.exJobEV.pageSize ∧
    (0 : Int) = Int.tmod 0 DP.exJobC1.pageSize :=
  ⟨(physical_address_formula.1 EV.exFramesEV EV.exJobEV 100 1124 2 100 (by decide)).1,
   (physical_address_formula.2 DP.exStC1 0 0 DP.exJobC1 (DP.resolveAddress DP.exStC1 0 0).1
      0 0 0
      (DP.reach_wf (DP.Reach.init 8 512 2 [DP.exJobC1] (by decide) (by decide)
        (by decide))).1
      (by decide) (by decide) (by decide)).1⟩


namespace DP

/-- Claim C10: a page hit through `loadPage` does not advance the global
clock; it stamps the hit frame with the current clock value, so every
frame's timestamp — in particular the hit page's — stays at most the
current clock, hence never strictly above the timestamp of the most
recently faulted-in page (whose stamp is the current clock).  Only the
fault path and `resolveAddress`'s hit path increment the clock. -/
theorem hit_does_not_advance_clock :
    (∀ (s : DPState) (k : Nat) (p : Int) (job : Job), s.jobs[k]? = some job →
      p ∈ job.loadedPages →
      (loadPage s k p).currentTime = s.currentTime ∧
      (∀ (i : Nat) (f' : PageFrame), (loadPage s k p).memoryFrames[i]? = some f' →
        (loadPage s k p).memoryFrames[i]? = s.memoryFrames[i]? ∨
          f'.accessTime = s.currentTime) ∧
      ((∀ (i : Nat) (f : PageFrame), s.memoryFrames[i]? = some f →
          f.accessTime ≤ s.currentTime) →
        ∀ (j : Nat) (fL : PageFrame), s.memoryFrames[j]? = some fL →
          fL.accessTime = s.currentTime →
          ∀ (i : Nat) (f' : PageFrame), (loadPage s k p).memoryFrames[i]? = some f' →
            f'.accessTime ≤ fL.accessTime)) ∧
    (∀ (s : DPState) (k : Nat) (p : Int) (job : Job), s.jobs[k]? = some job →
      p ∉ job.loadedPages → (loadPage s k p).currentTime = s.currentTime + 1) ∧
    (∀ (s : DPState) (k : Nat) (addr : Int) (job : Job), s.jobs[k]? = some job →
      ¬(addr.tdiv job.pageSize < 0 ∨
        (job.pages.length : Int) ≤ addr.tdiv job.pageSize) →
      addr.tdiv job.pageSize ∈ job.loadedPages →
      s.memoryFrames.any (hitPred job.jobID (addr.tdiv job.pageSize)) = true →
      (resolveAddress s k addr).1.currentTime = s.currentTime + 1) := by
  refine ⟨?_, ?_, ?_⟩
  · intro s k p job hjk hmem
    have heq : loadPage s k p = { s with
        memoryFrames := updateFirst s.memoryFrames (hitPred job.jobID p)
          (touchFrame s.currentTime) } := by
      simp only [loadPage, hjk, if_pos hmem]
    have hframes : ∀ (i : Nat) (f' : PageFrame),
        (loadPage s k p).memoryFrames[i]? = some f' →
        (loadPage s k p).memoryFrames[i]? = s.memoryFrames[i]? ∨
          (∃ f0, s.memoryFrames[i]? = some f0 ∧ f' = touchFrame s.currentTime f0) := by
      intro i f' hif
      rw [heq] at hif ⊢
      rcases getElem?_updateFirst_cases s.memoryFrames (hitPred job.jobID p)
          (touchFrame s.currentTime) i with hc | ⟨hc, -, -, -⟩
      · exact Or.inl hc
      · right
        have hif2 : ((s.memoryFrames[i]?).map (touchFrame s.currentTime)) = some f' := by
          rw [← hc]
          exact hif
        obtain ⟨f0, hf0, hmap⟩ := Option.map_eq_some'.mp hif2
        exact ⟨f0, hf0, hmap.symm⟩
    refine ⟨by rw [heq], ?_, ?_⟩
    · intro i f' hif
      rcases hframes i f' hif with hc | ⟨f0, hf0, hft⟩
      · exact Or.inl hc
      · right
        rw [hft]
        rfl
    · intro hclock j fL hj hLt i f' hif
      rw [hLt]
      rcases hframes i f' hif with hc | ⟨f0, hf0, hft⟩
      · rw [hc] at hif
        exact hclock i f' hif
      · rw [hft]
        exact le_refl _
  · intro s k p job hjk hmem
    have heq : loadPage s k p = chooseInstall { s with
        jobs := updateAt s.jobs k bumpFaults, currentTime := s.currentTime + 1 } k p := by
      simp only [loadPage, hjk, if_neg hmem]
    rw [heq, chooseInstall_time]
  · intro s k addr job hjk hbound hmem hany
    have heq : resolveAddress s k addr =
        finishResolve (hitStamp s job.jobID (addr.tdiv job.pageSize)) k
          (addr.tdiv job.pageSize) (addr.tmod job.pageSize) := by
      simp only [resolveAddress, hjk]
      rw [if_neg hbound, if_pos hmem]
    rw [heq, finishResolve_time, hitStamp_time_of_any hany]

/-- Witness for claim C10: in the LRU example, the third access (a hit on
page 0) leaves the clock unchanged, while the first access (a fault)
advanced it by one. -/
theorem hit_does_not_advance_clock_witness :
    (loadPage (loadPage (loadPage exStC2 0 0) 0 1) 0 0).currentTime =
      (loadPage (loadPage exStC2 0 0) 0 1).currentTime ∧
    (loadPage exStC2 0 0).currentTime = exStC2.currentTime + 1 :=
  ⟨(hit_does_not_advance_clock.1 (loadPage (loadPage exStC2 0 0) 0 1) 0 0
      ⟨7, 1500, 512, [0, 1, 2], [1, 0], [(0, 0), (1, 1)], 2⟩
      (by decide) (by decide)).1,
   hit_does_not_advance_clock.2.1 exStC2 0 0 exJobC2 (by decide) (by decide)⟩

end DP


/-- Ceiling division: floor plus carry equals `(m + n - 1) / n`. -/
theorem ceil_div_eq (m n : Nat) (hn : 0 < n) :
    m / n + (if m % n = 0 then 0 else 1) = (m + n - 1) / n := by
  have hdm := Nat.div_add_mod m n
  have hlt : m % n < n := Nat.mod_lt _ hn
  set q := m / n with hq
  set r := m % n with hr0
  by_cases hr : r = 0
  · rw [if_pos hr]
    have hm' : m = n * q := by rw [← hdm, hr, Nat.add_zero]
    rw [Nat.add_zero]
    conv_rhs => rw [hm']
    rw [Nat.add_sub_assoc (by omega), Nat.mul_add_div hn, Nat.div_eq_of_lt (by omega)]
    omega
  · rw [if_neg hr]
    have hm' : m = n * q + r := hdm.symm
    conv_rhs => rw [hm']
    have h3 : r + n - 1 = (r - 1) + n := by omega
    have h2 : n * q + r + n - 1 = n * q + ((r - 1) + n) := by
      rw [Nat.add_assoc, Nat.add_sub_assoc (by omega), h3]
    rw [h2, Nat.mul_add_div hn, Nat.add_div_right _ hn, Nat.div_eq_of_lt (by omega)]

namespace EV

/-- `divideJobIntoPages` written out (guard already known false). -/
theorem divideJobIntoPages_eq (job : Job) (h : ¬ job.pageSize ≤ 0) :
    divideJobIntoPages job = { job with
      internalFragmentation := if job.jobSize.tmod job.pageSize > 0
        then job.pageSize - job.jobSize.tmod job.pageSize else 0,
      pages := (List.range (if job.jobSize.tmod job.pageSize > 0
        then job.jobSize.tdiv job.pageSize + 1
        else job.jobSize.tdiv job.pageSize).toNat).map (fun i => Int.ofNat i),
      pageTable := [] } := by
  simp only [divideJobIntoPages, clearJob]
  rw [if_neg h]

end EV

namespace DP

/-- The demand-paging `divideJobIntoPages` written out. -/
theorem divideJobIntoPages_dp_eq (job : Job) :
    divideJobIntoPages job = { job with
      pages := job.pages ++ (List.range (if job.jobSize.tmod job.pageSize > 0
        then job.jobSize.tdiv job.pageSize + 1
        else job.jobSize.tdiv job.pageSize).toNat).map (fun i => Int.ofNat i),
      pageFaults := 0 } := by
  simp only [divideJobIntoPages]

end DP

/-- The page count `floor + carry` computed by both variants, as a `Nat`. -/
theorem numPages_toNat (m n : Nat) (hn : 0 < n) :
    (if ((m : Int)).tmod ((n : Int)) > 0
      then ((m : Int)).tdiv ((n : Int)) + 1
      else ((m : Int)).tdiv ((n : Int))).toNat = (m + n - 1) / n := by
  have htmod : ((m : Int)).tmod ((n : Int)) = ((m % n : Nat) : Int) := rfl
  have htdiv : ((m : Int)).tdiv ((n : Int)) = ((m / n : Nat) : Int) := rfl
  rw [htmod, htdiv]
  by_cases hr : m % n = 0
  · have hc : ¬(((m % n : Nat) : Int) > 0) := by
      rw [hr]
      decide
    rw [if_neg hc, Int.toNat_natCast, ← ceil_div_eq m n hn, if_pos hr]
    omega
  · have hc : ((m % n : Nat) : Int) > 0 := Int.natCast_pos.mpr (Nat.pos_of_ne_zero hr)
    rw [if_pos hc,
      show (((m / n : Nat) : Int) + 1) = ((m / n + 1 : Nat) : Int) by norm_cast,
      Int.toNat_natCast, ← ceil_div_eq m n hn, if_neg hr]

open DP EV in
/-- Claim C6: for `size ≥ 0` and `pageSize > 0`, dividing a job into pages
produces exactly `⌈size / pageSize⌉ = (size + pageSize - 1) / pageSize`
pages numbered `0..numPages-1` (zero pages for a zero-size job), and the
event-driven variant sets `internalFragmentation` to
`pageSize - size mod pageSize` when the remainder is nonzero and to 0
otherwise (the demand-paging variant's `Job` has no fragmentation field;
its page list and reset fault counter are covered by the second part). -/
theorem divide_into_pages_ceil :
    (∀ (job : EV.Job) (m n : Nat), job.jobSize = (m : Int) → job.pageSize = (n : Int) →
      0 < n →
      (EV.divideJobIntoPages job).pages =
        (List.range ((m + n - 1) / n)).map (fun i => Int.ofNat i) ∧
      (EV.divideJobIntoPages job).pages.length = (m + n - 1) / n ∧
      (m = 0 → (EV.divideJobIntoPages job).pages = []) ∧
      (EV.divideJobIntoPages job).internalFragmentation =
        (if m % n = 0 then (0 : Int) else ((n - m % n : Nat) : Int))) ∧
    (∀ (job : DP.Job) (m n : Nat), job.jobSize = (m : Int) → job.pageSize = (n : Int) →
      0 < n → job.pages = [] →
      (DP.divideJobIntoPages job).pages =
        (List.range ((m + n - 1) / n)).map (fun i => Int.ofNat i) ∧
      (DP.divideJobIntoPages job).pages.length = (m + n - 1) / n ∧
      (DP.divideJobIntoPages job).pageFaults = 0) := by
  constructor
  · intro job m n hm hn hnpos
    have hps : ¬ job.pageSize ≤ 0 := by
      rw [hn]
      exact not_le.mpr (by exact_mod_cast hnpos)
    rw [EV.divideJobIntoPages_eq job hps]
    have hpages : (if job.jobSize.tmod job.pageSize > 0
        then job.jobSize.tdiv job.pageSize + 1
        else job.jobSize.tdiv job.pageSize).toNat = (m + n - 1) / n := by
      rw [hm, hn]
      exact numPages_toNat m n hnpos
    refine ⟨by rw [hpages], ?_, ?_, ?_⟩
    · show ((List.range _).map (fun i => Int.ofNat i)).length = _
      rw [hpages]
      simp
    · intro hm0
      show (List.range _).map (fun i => Int.ofNat i) = []
      rw [hpages, hm0]
      rw [Nat.zero_add, Nat.div_eq_of_lt (by omega)]
      rfl
    · show (if job.jobSize.tmod job.pageSize > 0
          then job.pageSize - job.jobSize.tmod job.pageSize else 0) = _
      rw [hm, hn,
        show ((m : Int)).tmod ((n : Int)) = ((m % n : Nat) : Int) from rfl]
      by_cases hr : m % n = 0
      · have hc : ¬(((m % n : Nat) : Int) > 0) := by
          rw [hr]
          decide
        rw [if_neg hc, if_pos hr]
      · have hc : ((m % n : Nat) : Int) > 0 := Int.natCast_pos.mpr (Nat.pos_of_ne_zero hr)
        rw [if_pos hc, if_neg hr,
          Nat.cast_sub (le_of_lt (Nat.mod_lt _ hnpos))]
  · intro job m n hm hn hnpos hempty
    rw [DP.divideJobIntoPages_dp_eq job]
    have hpages : (if job.jobSize.tmod job.pageSize > 0
        then job.jobSize.tdiv job.pageSize + 1
        else job.jobSize.tdiv job.pageSize).toNat = (m + n - 1) / n := by
      rw [hm, hn]
      exact numPages_toNat m n hnpos
    refine ⟨?_, ?_, rfl⟩
    · show job.pages ++ (List.range _).map (fun i => Int.ofNat i) = _
      rw [hempty, hpages, List.nil_append]
    · show (job.pages ++ (List.range _).map (fun i => Int.ofNat i)).length = _
      rw [hempty, hpages, List.nil_append]
      simp

/-- Witness for claim C6: a 1000-byte job with 512-byte pages gets
`⌈1000/512⌉ = 2` pages in both variants and fragmentation 24. -/
theorem divide_into_pages_ceil_witness :
    (EV.divideJobIntoPages ⟨3, 1000, 512, 0, [], [], 0, 1, -1⟩).pages.length =
      (1000 + 512 - 1) / 512 ∧
    (EV.divideJobIntoPages ⟨3, 1000, 512, 0, [], [], 0, 1, -1⟩).internalFragmentation =
      (if 1000 % 512 = 0 then (0 : Int) else ((512 - 1000 % 512 : Nat) : Int)) ∧
    (DP.divideJobIntoPages ⟨3, 1000, 512, [], [], [], 7⟩).pages.length =
      (1000 + 512 - 1) / 512 :=
  ⟨(divide_into_pages_ceil.1 ⟨3, 1000, 512, 0, [], [], 0, 1, -1⟩ 1000 512 rfl rfl
      (by decide)).2.1,
   (divide_into_pages_ceil.1 ⟨3, 1000, 512, 0, [], [], 0, 1, -1⟩ 1000 512 rfl rfl
      (by decide)).2.2.2,
   (divide_into_pages_ceil.2 ⟨3, 1000, 512, [], [], [], 7⟩ 1000 512 rfl rfl
      (by decide) rfl).2.1⟩

namespace EV

/-- Each position of the frame table after `freeJobFrames`: owned frames are
released with the `-1` sentinels, all other frames are untouched. -/
theorem freeJobFrames_getElem? (jid : Int) (frames : List PageFrame) (i : Nat)
    (f : PageFrame) (hf : frames[i]? = some f) :
    (freeJobFrames jid frames)[i]? =
      some (if f.isFree = false ∧ f.jobID = jid
        then { f with isFree := true, jobID := -1, pageNumber := -1 } else f) := by
  have hmap : (freeJobFrames jid frames)[i]? =
      some (if !f.isFree && f.jobID == jid
        then { f with isFree := true, jobID := -1, pageNumber := -1 } else f) := by
    simp [freeJobFrames, hf]
  rw [hmap]
  by_cases hc : f.isFree = false ∧ f.jobID = jid
  · have hb : (!f.isFree && f.jobID == jid) = true := by
      obtain ⟨h1, h2⟩ := hc
      simp [h1, h2]
    rw [if_pos hb, if_pos hc]
  · have hb : (!f.isFree && f.jobID == jid) = false := by
      by_cases h1 : f.isFree
      · simp [h1]
      · have h1' : f.isFree = false := by simpa using h1
        have h2 : f.jobID ≠ jid := fun hq => hc ⟨h1', hq⟩
        simp [h1', h2]
    rw [if_neg (by simp [hb]), if_neg hc]

/-- Releasing a job's frames twice is the same as releasing them once. -/
theorem freeJobFrames_idem (jid : Int) : ∀ (frames : List PageFrame),
    freeJobFrames jid (freeJobFrames jid frames) = freeJobFrames jid frames
  | [] => rfl
  | f :: rest => by
    simp only [freeJobFrames, List.map_cons, List.cons.injEq]
    constructor
    · by_cases h : (!f.isFree && f.jobID == jid) = true
      · rw [if_pos h]
        simp
      · simp only [if_neg h]
    · exact freeJobFrames_idem jid rest

/-- `freeJobFrames` on a job that owns no frame changes nothing. -/
theorem freeJobFrames_noop (jid : Int) : ∀ (frames : List PageFrame),
    (∀ f ∈ frames, f.isFree = false → f.jobID ≠ jid) →
    freeJobFrames jid frames = frames
  | [], _ => rfl
  | f :: rest, h => by
    have hb : (!f.isFree && f.jobID == jid) = false := by
      by_cases h1 : f.isFree
      · simp [h1]
      · have h1' : f.isFree = false := by simpa using h1
        have h2 := h f (by simp) h1'
        simp [h1', h2]
    simp only [freeJobFrames, List.map_cons, List.cons.injEq]
    refine ⟨by rw [if_neg (by simp [hb])], ?_⟩
    exact freeJobFrames_noop jid rest (fun x hx => h x (by simp [hx]))

/-- Claim C5 (amended): `freeJobFrames(jobID)` releases exactly the frames
owned by `jobID` back to free with the `-1` sentinels, leaves every other
frame unchanged, is idempotent, and is a no-op on a job owning no frame —
but it does NOT clear the job's page table: the jobs vector is untouched
(the event-simulator `Job` has no `loadedPages` field at all), and the page
table is only cleared by the separate `pageTable.clear()` call in
`runSimulator`'s COMPLETE branch, modelled by `completeRelease`, which
under a unique carrier of the ID also clears that job's table. -/
theorem free_job_frames_release :
    (∀ (jid : Int) (frames : List PageFrame) (i : Nat) (f : PageFrame),
      frames[i]? = some f →
      (freeJobFrames jid frames)[i]? =
        some (if f.isFree = false ∧ f.jobID = jid
          then { f with isFree := true, jobID := -1, pageNumber := -1 } else f)) ∧
    (∀ (jid : Int) (frames : List PageFrame),
      freeJobFrames jid (freeJobFrames jid frames) = freeJobFrames jid frames) ∧
    (∀ (jid : Int) (frames : List PageFrame),
      (∀ f ∈ frames, f.isFree = false → f.jobID ≠ jid) →
      freeJobFrames jid frames = frames) ∧
    (∀ (jid : Int) (s : EVSys), (freeJobFramesS jid s).jobs = s.jobs) ∧
    (∀ (jid : Int) (s : EVSys) (k : Nat) (j : Job),
      s.jobs[k]? = some j → j.jobID = jid →
      (∀ (k2 : Nat) (j2 : Job), s.jobs[k2]? = some j2 → j2.jobID = jid → k2 = k) →
      (completeRelease jid s).memoryFrames = freeJobFrames jid s.memoryFrames ∧
      (completeRelease jid s).jobs[k]? = some { j with pageTable := [] } ∧
      ∀ (k2 : Nat), k2 ≠ k → (completeRelease jid s).jobs[k2]? = s.jobs[k2]?) := by
  refine ⟨freeJobFrames_getElem?, freeJobFrames_idem, freeJobFrames_noop,
    fun jid s => rfl, ?_⟩
  intro jid s k j hk hjid huniq
  have huniq' : ∀ (i i2 : Nat) (xi xj : Job), s.jobs[i]? = some xi →
      s.jobs[i2]? = some xj → (xi.jobID == jid) = true → (xj.jobID == jid) = true →
      i = i2 := by
    intro i i2 xi xj hxi hxj hpi hpj
    have h1 : xi.jobID = jid := by simpa using hpi
    have h2 : xj.jobID = jid := by simpa using hpj
    rw [huniq i xi hxi h1, huniq i2 xj hxj h2]
  have hpred : ((fun j2 : Job => j2.jobID == jid) j) = true := by simp [hjid]
  obtain ⟨h1, h2⟩ := updateFirst_unique s.jobs (fun j2 => j2.jobID == jid)
    (fun j2 => { j2 with pageTable := [] }) k j huniq' hk hpred
  exact ⟨rfl, h1, h2⟩

/-- Counterexample to claim C5 as stated: in `exSysC5` job 1 owns frame 0
and has page table `[(0, 0)]`; after `freeJobFrames 1` the frame is free
but the job's page table is unchanged, not cleared. -/
theorem free_job_frames_counterexample :
    (freeJobFramesS 1 exSysC5).jobs = exSysC5.jobs ∧
    (exSysC5.jobs[0]?).map Job.pageTable = some [(0, 0)] ∧
    ((freeJobFramesS 1 exSysC5).jobs[0]?).map Job.pageTable = some [(0, 0)] ∧
    some [(0, 0)] ≠ some ([] : List (Int × Int)) ∧
    (exSysC5.memoryFrames[0]?).map PageFrame.isFree = some false ∧
    ((freeJobFramesS 1 exSysC5).memoryFrames[0]?).map PageFrame.isFree = some true := by
  decide

/-- Witness for claim C5: the amended theorem applied to `exSysC5` — the
COMPLETE branch frees job 1's frame and clears its page table. -/
theorem free_job_frames_release_witness :
    (completeRelease 1 exSysC5).jobs[0]? =
      some { (⟨1, 600, 512, 424, [0], [(0, 0)], 0, 2, -1⟩ : Job) with pageTable := [] } ∧
    (completeRelease 1 exSysC5).memoryFrames = freeJobFrames 1 exSysC5.memoryFrames :=
  have h := free_job_frames_release.2.2.2.2 1 exSysC5 0
    ⟨1, 600, 512, 424, [0], [(0, 0)], 0, 2, -1⟩ rfl rfl
    (by
      intro k2 j2 h1 _
      match k2 with
      | 0 => rfl
      | n + 1 => simp [exSysC5] at h1)
  ⟨h.2.1, h.1⟩

/-- Past the header check, the event-simulator import is exactly a filter:
empty lines and unparseable records are dropped, everything else is parsed. -/
theorem importGoEV_skip_eq (ps : Int) : ∀ (lines : List String),
    importGoEV ps false lines =
      lines.filterMap (fun l => if l.isEmpty then none else parseRecordEV l ps)
  | [] => rfl
  | line :: rest => by
    by_cases he : line.isEmpty
    · simp only [importGoEV, he, if_true, List.filterMap_cons, importGoEV_skip_eq ps rest]
    · simp only [importGoEV, he, Bool.false_eq_true, if_false, Bool.false_and,
        List.filterMap_cons]
      cases hp : parseRecordEV line ps with
      | none => simp [importGoEV_skip_eq ps rest]
      | some j => simp [importGoEV_skip_eq ps rest]

/-- The demand-paging import dies at the first unparseable line: with any
prefix of well-formed lines, a bad line aborts the whole import. -/
theorem importDP_abort (ps : Int) : ∀ (pre : List String),
    (∀ l ∈ pre, DP.parseLineDP l ≠ none) →
    ∀ (bad : String), DP.parseLineDP bad = none → ∀ (post : List String),
    DP.importJobsFromFileDP (pre ++ bad :: post) ps = .error ()
  | [], _ => by
    intro bad hbad post
    simp only [List.nil_append, DP.importJobsFromFileDP]
    rw [hbad]
  | l :: pre', hpre => by
    intro bad hbad post
    have hl := hpre l (by simp)
    cases hp : DP.parseLineDP l with
    | none => exact absurd hp hl
    | some v =>
      obtain ⟨jid, jsz⟩ := v
      have h2 : DP.importJobsFromFileDP ((l :: pre') ++ bad :: post) ps =
          (match DP.importJobsFromFileDP (pre' ++ bad :: post) ps with
           | .error e => .error e
           | .ok jobs => .ok (DP.divideJobIntoPages ⟨jid, jsz, ps, [], [], [], 0⟩ :: jobs)) := by
        simp only [List.cons_append, DP.importJobsFromFileDP]
        rw [hp]
        rfl
      rw [h2, importDP_abort ps pre' (fun x hx => hpre x (by simp [hx])) bad hbad post]

/-- Claim C8 (amended): the event-simulator import skips malformed records
and continues — past the header check it returns exactly the parseable,
nonempty lines — whereas the demand-paging import calls `stoi` with no
try/catch, so one malformed field aborts the entire import, losing every
remaining record. -/
theorem import_skips_malformed_records :
    (∀ (ps : Int) (lines : List String),
      importGoEV ps false lines =
        lines.filterMap (fun l => if l.isEmpty then none else parseRecordEV l ps)) ∧
    (∀ (ps : Int) (pre : List String), (∀ l ∈ pre, DP.parseLineDP l ≠ none) →
      ∀ (bad : String), DP.parseLineDP bad = none → ∀ (post : List String),
      DP.importJobsFromFileDP (pre ++ bad :: post) ps = .error ()) :=
  ⟨importGoEV_skip_eq, importDP_abort⟩

/-- Counterexample to claim C8 as stated: the same three-line file with a
malformed second record is fully rejected by the demand-paging import,
while the event-simulator import keeps records 1 and 2. -/
theorem import_abort_counterexample :
    DP.importJobsFromFileDP ["1,100", "x,50", "2,200"] 512 = .error () ∧
    (importJobsFromFileEV ["1,100", "x,50", "2,200"] 512).map Job.jobID = [1, 2] := by
  constructor
  · rfl
  · rfl

/-- Witness for claim C8 at a concrete file: the skip equation on three
lines and the abort with prefix `"1,100"`, bad line `"x,50"`. -/
theorem import_skips_malformed_records_witness :
    importGoEV 512 false ["1,100", "x,50", "2,200"] =
      List.filterMap (fun l => if l.isEmpty then none else parseRecordEV l 512)
        ["1,100", "x,50", "2,200"] ∧
    DP.importJobsFromFileDP (["1,100"] ++ "x,50" :: ["2,200"]) 512 = .error () :=
  ⟨import_skips_malformed_records.1 512 ["1,100", "x,50", "2,200"],
   import_skips_malformed_records.2 512 ["1,100"] (by decide) "x,50" (by decide) ["2,200"]⟩

end EV

/-- A position holding an element satisfying `pred` makes `countP` positive. -/
theorem countP_pos_of_getElem? (pred : α → Bool) : ∀ (l : List α) (i : Nat) (x : α),
    l[i]? = some x → pred x = true → 0 < l.countP pred
  | [], i, x, h, _ => by simp at h
  | a :: rest, 0, x, h, hp => by
    simp only [List.getElem?_cons_zero, Option.some.injEq] at h
    subst h
    simp [List.countP_cons, hp]
  | a :: rest, i + 1, x, h, hp => by
    have h' : rest[i]? = some x := by simpa using h
    have := countP_pos_of_getElem? pred rest i x h' hp
    simp only [List.countP_cons]
    omega

/-- `updateAt` that turns one element satisfying `pred` into one that does
not decrements `countP` by exactly one. -/
theorem countP_updateAt (pred : α → Bool) : ∀ (l : List α) (i : Nat) (g : α → α) (x : α),
    l[i]? = some x → pred x = true → pred (g x) = false →
    (updateAt l i g).countP pred = l.countP pred - 1
  | [], i, _, x, h, _, _ => by simp at h
  | a :: rest, 0, g, x, h, hpx, hpgx => by
    simp only [List.getElem?_cons_zero, Option.some.injEq] at h
    subst h
    simp [updateAt, List.countP_cons, hpx, hpgx]
  | a :: rest, i + 1, g, x, h, hpx, hpgx => by
    have h' : rest[i]? = some x := by simpa using h
    have ih := countP_updateAt pred rest i g x h' hpx hpgx
    have hpos : 0 < rest.countP pred := countP_pos_of_getElem? pred rest i x h' hpx
    simp only [updateAt, List.countP_cons, ih]
    omega

/-- In a duplicate-free list, `getElem?` is injective on positions. -/
theorem nodup_getElem?_inj : ∀ (l : List α), l.Nodup →
    ∀ (t t2 : Nat) (x : α), l[t]? = some x → l[t2]? = some x → t = t2
  | [], _, t, _, x, h, _ => by simp at h
  | a :: rest, hnd, t, t2, x, h, h2 => by
    have hcons := List.nodup_cons.mp hnd
    cases t with
    | zero =>
      cases t2 with
      | zero => rfl
      | succ t2 =>
        simp only [List.getElem?_cons_zero, Option.some.injEq] at h
        subst h
        exact absurd (DP.mem_of_getElem?_some (show rest[t2]? = some a by simpa using h2))
          hcons.1
    | succ t =>
      cases t2 with
      | zero =>
        simp only [List.getElem?_cons_zero, Option.some.injEq] at h2
        subst h2
        exact absurd (DP.mem_of_getElem?_some (show rest[t]? = some a by simpa using h))
          hcons.1
      | succ t2 =>
        have := nodup_getElem?_inj rest hcons.2 t t2 x (by simpa using h) (by simpa using h2)
        omega

namespace EV

/-- The free-index list of `assignPageFrames` has no duplicates. -/
theorem freeIndices_nodup (frames : List PageFrame) : (freeIndices frames).Nodup :=
  List.Nodup.filter _ (List.nodup_range frames.length)

/-- Membership in the free-index list is exactly holding a free frame. -/
theorem mem_freeIndices (frames : List PageFrame) (i : Nat) :
    i ∈ freeIndices frames ↔ ∃ f, frames[i]? = some f ∧ f.isFree = true := by
  simp only [freeIndices, List.mem_filter, List.mem_range]
  constructor
  · rintro ⟨hlt, hp⟩
    cases hf : frames[i]? with
    | none =>
      rw [hf] at hp
      simp at hp
    | some f =>
      rw [hf] at hp
      exact ⟨f, rfl, hp⟩
  · rintro ⟨f, hf, hfree⟩
    refine ⟨getElem?_some_lt hf, ?_⟩
    rw [hf]
    exact hfree

/-- The free-index list has one entry per free frame. -/
theorem length_freeIndices : ∀ (frames : List PageFrame),
    (freeIndices frames).length = freeCount frames
  | [] => rfl
  | f :: fs => by
    have ih := length_freeIndices fs
    simp only [freeIndices, freeCount] at ih ⊢
    rw [List.length_cons, List.range_succ_eq_map, List.filter_cons, List.countP_cons]
    have hpred : ∀ a ∈ List.range fs.length,
        ((fun i => match (f :: fs)[i]? with
          | some g => g.isFree
          | none => false) ∘ Nat.succ) a =
        (fun i => match fs[i]? with
          | some g => g.isFree
          | none => false) a := fun a _ => by
      simp [Function.comp]
    rw [List.filter_map, List.filter_congr hpred]
    by_cases hfree : f.isFree = true
    · rw [if_pos (show (match (f :: fs)[0]? with
          | some g => g.isFree
          | none => false) = true by simpa using hfree)]
      simp [List.length_map, ih, hfree]
    · rw [if_neg (show ¬ (match (f :: fs)[0]? with
          | some g => g.isFree
          | none => false) = true by simpa using hfree)]
      simp [List.length_map, ih, hfree]

/-- One unfolding of the assignment loop once the indexed frame is known. -/
theorem assignGo_cons (p : Int) (ps' : List Int) (idx : Nat) (idxs' : List Nat)
    (frames : List PageFrame) (job : Job) (f : PageFrame)
    (hf : frames[idx]? = some f) :
    assignGo (p :: ps') (idx :: idxs') frames job =
      assignGo ps' idxs'
        (updateAt frames idx
          (fun f0 => { f0 with isFree := false, jobID := job.jobID, pageNumber := p }))
        { job with pageTable := tableInsert job.pageTable p f.frameID } := by
  have h1 : (updateAt frames idx
      (fun f0 => { f0 with isFree := false, jobID := job.jobID, pageNumber := p }))[idx]? =
      some { f with isFree := false, jobID := job.jobID, pageNumber := p } := by
    rw [getElem?_updateAt_self, hf]
    rfl
  simp only [assignGo]
  rw [h1]

/-- Full specification of the assignment loop: with enough distinct free
target indices, the loop installs the `t`-th page into the `t`-th index,
drops the free count by the page count, and touches nothing else. -/
theorem assignGo_spec : ∀ (ps : List Int) (idxs : List Nat) (frames : List PageFrame)
    (job : Job),
    ps.length ≤ idxs.length → idxs.Nodup → ps.Nodup →
    (∀ i ∈ idxs, ∃ f, frames[i]? = some f ∧ f.isFree = true) →
    (assignGo ps idxs frames job).1.length = frames.length ∧
    freeCount (assignGo ps idxs frames job).1 = freeCount frames - ps.length ∧
    (∀ (j : Nat), (∀ (t : Nat), t < ps.length → idxs[t]? ≠ some j) →
      (assignGo ps idxs frames job).1[j]? = frames[j]?) ∧
    (assignGo ps idxs frames job).2.jobID = job.jobID ∧
    (assignGo ps idxs frames job).2.pages = job.pages ∧
    (∀ (q : Int), q ∉ ps →
      tableLookup (assignGo ps idxs frames job).2.pageTable q =
        tableLookup job.pageTable q) ∧
    (∀ (t : Nat) (p : Int), ps[t]? = some p →
      ∃ (i : Nat) (f : PageFrame), idxs[t]? = some i ∧ frames[i]? = some f ∧
        f.isFree = true ∧
        (assignGo ps idxs frames job).1[i]? =
          some { f with isFree := false, jobID := job.jobID, pageNumber := p } ∧
        tableLookup (assignGo ps idxs frames job).2.pageTable p = some f.frameID)
  | [], idxs, frames, job, _, _, _, _ => by
    refine ⟨rfl, by simp [assignGo], fun j _ => rfl, rfl, rfl, fun q _ => rfl, ?_⟩
    intro t p hp
    simp at hp
  | p :: ps', [], frames, job, hlen, _, _, _ => by
    rw [List.length_cons, List.length_nil] at hlen
    exact absurd hlen (by omega)
  | p :: ps', idx :: idxs', frames, job, hlen, hndI, hndP, hfree => by
    obtain ⟨f, hf, hffree⟩ := hfree idx (by simp)
    have hIcons := List.nodup_cons.mp hndI
    have hPcons := List.nodup_cons.mp hndP
    have hstep := assignGo_cons p ps' idx idxs' frames job f hf
    have hlen' : ps'.length ≤ idxs'.length := by
      simp only [List.length_cons] at hlen
      omega
    have hfree' : ∀ i ∈ idxs', ∃ f0,
        (updateAt frames idx
          (fun f0 => { f0 with isFree := false, jobID := job.jobID, pageNumber := p }))[i]? =
          some f0 ∧ f0.isFree = true := by
      intro i hi
      have hne : i ≠ idx := fun hc => hIcons.1 (hc ▸ hi)
      rw [getElem?_updateAt_ne frames idx i _ hne]
      exact hfree i (by simp [hi])
    obtain ⟨ihlen, ihcount, ihunch, ihjid, ihpages, ihlook, ihpos⟩ :=
      assignGo_spec ps' idxs'
        (updateAt frames idx
          (fun f0 => { f0 with isFree := false, jobID := job.jobID, pageNumber := p }))
        { job with pageTable := tableInsert job.pageTable p f.frameID }
        hlen' hIcons.2 hPcons.2 hfree'
    have hcount1 : freeCount (updateAt frames idx
        (fun f0 => { f0 with isFree := false, jobID := job.jobID, pageNumber := p })) =
        freeCount frames - 1 :=
      countP_updateAt (fun f0 : PageFrame => f0.isFree) frames idx
        (fun f0 => { f0 with isFree := false, jobID := job.jobID, pageNumber := p })
        f hf hffree rfl
    have hpos0 : 0 < freeCount frames :=
      countP_pos_of_getElem? (fun f0 : PageFrame => f0.isFree) frames idx f hf hffree
    rw [hstep]
    refine ⟨?_, ?_, ?_, ihjid, ihpages, ?_, ?_⟩
    · rw [ihlen, length_updateAt]
    · rw [ihcount, hcount1]
      simp only [List.length_cons]
      omega
    · intro j hj
      have hjne : j ≠ idx := by
        have h0 := hj 0 (by simp)
        intro hc
        exact h0 (by simp [hc])
      have hrest : ∀ (t : Nat), t < ps'.length → idxs'[t]? ≠ some j := by
        intro t ht hc
        exact hj (t + 1) (by simp only [List.length_cons]; omega) (by simpa using hc)
      rw [ihunch j hrest, getElem?_updateAt_ne frames idx j _ hjne]
    · intro q hq
      have hq1 : q ≠ p := fun hc => hq (by simp [hc])
      have hq2 : q ∉ ps' := fun hc => hq (by simp [hc])
      rw [ihlook q hq2]
      exact tableLookup_insert_ne job.pageTable p f.frameID q hq1
    · intro t p0 hp0
      cases t with
      | zero =>
        simp only [List.getElem?_cons_zero, Option.some.injEq] at hp0
        subst hp0
        refine ⟨idx, f, by simp, hf, hffree, ?_, ?_⟩
        · have hrest : ∀ (t2 : Nat), t2 < ps'.length → idxs'[t2]? ≠ some idx := by
            intro t2 _ hc
            exact hIcons.1 (DP.mem_of_getElem?_some hc)
          rw [ihunch idx hrest, getElem?_updateAt_self, hf]
          rfl
        · rw [ihlook p hPcons.1]
          exact tableLookup_insert_self job.pageTable p f.frameID
      | succ t =>
        have hp0' : ps'[t]? = some p0 := by simpa using hp0
        obtain ⟨i, f0, hi, hf0, hf0free, hres, hlook⟩ := ihpos t p0 hp0'
        have hiMem : i ∈ idxs' := DP.mem_of_getElem?_some hi
        have hine : i ≠ idx := fun hc => hIcons.1 (hc ▸ hiMem)
        rw [getElem?_updateAt_ne frames idx i _ hine] at hf0
        exact ⟨i, f0, by simpa using hi, hf0, hf0free, hres, hlook⟩

/-- Claim C3: `assignPageFrames` is all-or-nothing.  `shuffled` models the
`std::shuffle` of the free-index vector (any permutation of it; the
vram_sim variant's rand-retry loop likewise realises a prefix of such a
permutation).  With fewer free frames than pages it fails mutating
nothing; otherwise it succeeds, the free count drops by exactly
`job.pages.length`, and the `t`-th page is mapped in the page table to the
frame ID of the `t`-th chosen index — all distinct and previously free. -/
theorem assign_page_frames_all_or_nothing (frames : List PageFrame) (job : Job)
    (shuffled : List Nat) (hperm : shuffled.Perm (freeIndices frames))
    (hnd : job.pages.Nodup) :
    (freeCount frames < job.pages.length →
      assignPageFrames frames job shuffled = (false, frames, job)) ∧
    (job.pages.length ≤ freeCount frames →
      (assignPageFrames frames job shuffled).1 = true ∧
      (assignPageFrames frames job shuffled).2.1.length = frames.length ∧
      freeCount (assignPageFrames frames job shuffled).2.1 =
        freeCount frames - job.pages.length ∧
      (∀ (t t2 i : Nat), shuffled[t]? = some i → shuffled[t2]? = some i → t = t2) ∧
      (∀ (t : Nat) (p : Int), job.pages[t]? = some p →
        ∃ (i : Nat) (f : PageFrame), shuffled[t]? = some i ∧ frames[i]? = some f ∧
          f.isFree = true ∧
          (assignPageFrames frames job shuffled).2.1[i]? =
            some { f with isFree := false, jobID := job.jobID, pageNumber := p } ∧
          tableLookup (assignPageFrames frames job shuffled).2.2.pageTable p =
            some f.frameID) ∧
      (∀ (q : Int), q ∉ job.pages →
        tableLookup (assignPageFrames frames job shuffled).2.2.pageTable q =
          tableLookup job.pageTable q)) := by
  have hlenEq : shuffled.length = freeCount frames := by
    rw [hperm.length_eq, length_freeIndices]
  have hndS : shuffled.Nodup := hperm.nodup_iff.mpr (freeIndices_nodup frames)
  have hfreeMem : ∀ i ∈ shuffled, ∃ f, frames[i]? = some f ∧ f.isFree = true := by
    intro i hi
    exact (mem_freeIndices frames i).mp (hperm.subset hi)
  constructor
  · intro hlt
    have hcond : (freeIndices frames).length < job.pages.length := by
      rw [length_freeIndices]
      exact hlt
    simp only [assignPageFrames]
    rw [if_pos hcond]
  · intro hle
    have hcond : ¬ (freeIndices frames).length < job.pages.length := by
      rw [length_freeIndices]
      omega
    have happ : assignPageFrames frames job shuffled =
        (true, assignGo job.pages shuffled frames job) := by
      simp only [assignPageFrames]
      rw [if_neg hcond]
    obtain ⟨h1, h2, h3, h4, h5, h6, h7⟩ :=
      assignGo_spec job.pages shuffled frames job
        (by rw [hlenEq]; exact hle) hndS hnd hfreeMem
    rw [happ]
    exact ⟨rfl, h1, h2, nodup_getElem?_inj shuffled hndS, h7, h6⟩

/-- Witness for claim C3: two pages into three fresh frames, with the
identity shuffle; the allocation succeeds and exactly one frame stays
free. -/
theorem assign_page_frames_all_or_nothing_witness :
    (assignPageFrames (initFrames 3 512) ⟨9, 1000, 512, 0, [0, 1], [], 0, 2, -1⟩
      (freeIndices (initFrames 3 512))).1 = true ∧
    freeCount (assignPageFrames (initFrames 3 512) ⟨9, 1000, 512, 0, [0, 1], [], 0, 2, -1⟩
      (freeIndices (initFrames 3 512))).2.1 = freeCount (initFrames 3 512) - 2 :=
  have h := (assign_page_frames_all_or_nothing (initFrames 3 512)
      ⟨9, 1000, 512, 0, [0, 1], [], 0, 2, -1⟩ (freeIndices (initFrames 3 512))
      (List.Perm.refl _) (by decide)).2 (by decide)
  ⟨h.1, h.2.2.1⟩

/-- A heap non-top under the reversed comparison has no smaller time. -/
theorem eventLess_false_le {a b : Event} (h : eventLess a b = false) :
    a.time ≤ b.time := by
  by_cases ht : a.time = b.time
  · exact le_of_eq ht
  · rw [eventLess, if_pos ht] at h
    exact le_of_not_lt (by simpa using h)

/-- On equal times, a heap top under the reversed comparison has the
smaller type tag (ARRIVAL = 0 before COMPLETE = 1). -/
theorem eventLess_false_tie {a b : Event} (h : eventLess a b = false)
    (ht : a.time = b.time) : a.type.toNat ≤ b.type.toNat := by
  rw [eventLess, if_neg (by simp [ht])] at h
  exact Nat.le_of_not_lt (by simpa using h)

/-- Invariant of runs whose completion pushes are never scheduled in the
past: dequeues so far are in order, below everything still queued, and
below the clock. -/
def SchedInvN (s : Sched) : Prop :=
  s.pops.Pairwise (fun a b => a.time ≤ b.time) ∧
  (∀ p ∈ s.pops, ∀ x ∈ s.pq, p.time ≤ x.time) ∧
  (∀ p ∈ s.pops, p.time ≤ s.now)

theorem schedInvN_step {s s' : Sched} (h : SchedStepN s s') (hinv : SchedInvN s) :
    SchedInvN s' := by
  cases h with
  | pop e hm ht hmax =>
    obtain ⟨h1, h2, h3⟩ := hinv
    refine ⟨?_, ?_, ?_⟩
    · rw [List.pairwise_append]
      refine ⟨h1, by simp, ?_⟩
      intro p hp e' he'
      simp only [List.mem_singleton] at he'
      subst he'
      exact h2 p hp _ hm
    · intro p hp x hx
      have hx' : x ∈ s.pq := List.mem_of_mem_erase hx
      rcases List.mem_append.mp hp with hp | hp
      · exact h2 p hp x hx'
      · simp only [List.mem_singleton] at hp
        subst hp
        exact eventLess_false_le (hmax x hx')
    · intro p hp
      rcases List.mem_append.mp hp with hp | hp
      · exact h3 p hp
      · simp only [List.mem_singleton] at hp
        subst hp
        exact ht
  | push e hc hd =>
    obtain ⟨h1, h2, h3⟩ := hinv
    refine ⟨h1, ?_, h3⟩
    intro p hp x hx
    rcases List.mem_cons.mp hx with rfl | hx
    · exact le_trans (h3 p hp) hd
    · exact h2 p hp x hx
  | tick =>
    obtain ⟨h1, h2, h3⟩ := hinv
    exact ⟨h1, h2, fun p hp => le_trans (h3 p hp) (show s.now ≤ s.now + 1 by omega)⟩

theorem schedInvN_reach {s s' : Sched}
    (h : Relation.ReflTransGen SchedStepN s s') (hinv : SchedInvN s) : SchedInvN s' := by
  induction h with
  | refl => exact hinv
  | tail hab hbc ih => exact schedInvN_step hbc ih

/-- Invariant of arbitrary runs: no dequeued COMPLETE ever precedes an
equal-time dequeued ARRIVAL, and no dequeued COMPLETE ties with a queued
ARRIVAL. -/
def SchedInvT (s : Sched) : Prop :=
  s.pops.Pairwise (fun a b =>
    ¬(a.type = EventType.complete ∧ b.type = EventType.arrival ∧ a.time = b.time)) ∧
  (∀ c ∈ s.pops, c.type = EventType.complete →
    ∀ a ∈ s.pq, a.type = EventType.arrival → c.time ≠ a.time)

theorem schedInvT_step {s s' : Sched} (h : SchedStep s s') (hinv : SchedInvT s) :
    SchedInvT s' := by
  cases h with
  | pop e hm ht hmax =>
    obtain ⟨h1, h2⟩ := hinv
    refine ⟨?_, ?_⟩
    · rw [List.pairwise_append]
      refine ⟨h1, by simp, ?_⟩
      intro p hp e' he'
      simp only [List.mem_singleton] at he'
      subst he'
      rintro ⟨hpc, hea, hte⟩
      exact h2 p hp hpc _ hm hea hte
    · intro c hc hcc a ha haa
      have ha' : a ∈ s.pq := List.mem_of_mem_erase ha
      rcases List.mem_append.mp hc with hc | hc
      · exact h2 c hc hcc a ha' haa
      · simp only [List.mem_singleton] at hc
        subst hc
        intro hte
        have hle := eventLess_false_tie (hmax a ha') hte
        rw [hcc, haa] at hle
        exact absurd hle (by decide)
  | push e hc =>
    obtain ⟨h1, h2⟩ := hinv
    refine ⟨h1, ?_⟩
    intro c hcm hcc a ha haa
    rcases List.mem_cons.mp ha with rfl | ha
    · rw [hc] at haa
      exact absurd haa (by decide)
    · exact h2 c hcm hcc a ha haa
  | tick =>
    exact hinv

theorem schedInvT_reach {s s' : Sched}
    (h : Relation.ReflTransGen SchedStep s s') (hinv : SchedInvT s) : SchedInvT s' := by
  induction h with
  | refl => exact hinv
  | tail hab hbc ih => exact schedInvT_step hbc ih

/-- Counterexample to claim C7 as stated: starting from arrivals at times 0
and 4, a completion pushed in the past (a job with CSV duration `-3`
completes at `4 + (-3) = 1`) is dequeued after the time-4 arrival, so the
dequeue history `[t=0, t=4, t=1]` is not in non-decreasing time order. -/
theorem scheduler_order_counterexample :
    Relation.ReflTransGen SchedStep
      ⟨[⟨0, EventType.arrival, 1⟩, ⟨4, EventType.arrival, 2⟩], 0, []⟩
      ⟨[⟨5, EventType.complete, 1⟩], 4,
        [⟨0, EventType.arrival, 1⟩, ⟨4, EventType.arrival, 2⟩,
         ⟨1, EventType.complete, 2⟩]⟩ ∧
    ¬ List.Pairwise (fun a b : Event => a.time ≤ b.time)
      [⟨0, EventType.arrival, 1⟩, ⟨4, EventType.arrival, 2⟩,
       ⟨1, EventType.complete, 2⟩] := by
  constructor
  · have h1 : SchedStep
        ⟨[⟨0, EventType.arrival, 1⟩, ⟨4, EventType.arrival, 2⟩], 0, []⟩
        ⟨[⟨4, EventType.arrival, 2⟩], 0, [⟨0, EventType.arrival, 1⟩]⟩ := by
      exact SchedStep.pop _ ⟨0, EventType.arrival, 1⟩ (by decide) (by decide) (by decide)
    have h2 : SchedStep
        ⟨[⟨4, EventType.arrival, 2⟩], 0, [⟨0, EventType.arrival, 1⟩]⟩
        ⟨[⟨5, EventType.complete, 1⟩, ⟨4, EventType.arrival, 2⟩], 0,
         [⟨0, EventType.arrival, 1⟩]⟩ := by
      exact SchedStep.push _ ⟨5, EventType.complete, 1⟩ (by decide)
    have h3 : SchedStep
        ⟨[⟨5, EventType.complete, 1⟩, ⟨4, EventType.arrival, 2⟩], 0,
         [⟨0, EventType.arrival, 1⟩]⟩
        ⟨[⟨5, EventType.complete, 1⟩, ⟨4, EventType.arrival, 2⟩], 1,
         [⟨0, EventType.arrival, 1⟩]⟩ := SchedStep.tick _
    have h4 : SchedStep
        ⟨[⟨5, EventType.complete, 1⟩, ⟨4, EventType.arrival, 2⟩], 1,
         [⟨0, EventType.arrival, 1⟩]⟩
        ⟨[⟨5, EventType.complete, 1⟩, ⟨4, EventType.arrival, 2⟩], 2,
         [⟨0, EventType.arrival, 1⟩]⟩ := SchedStep.tick _
    have h5 : SchedStep
        ⟨[⟨5, EventType.complete, 1⟩, ⟨4, EventType.arrival, 2⟩], 2,
         [⟨0, EventType.arrival, 1⟩]⟩
        ⟨[⟨5, EventType.complete, 1⟩, ⟨4, EventType.arrival, 2⟩], 3,
         [⟨0, EventType.arrival, 1⟩]⟩ := SchedStep.tick _
    have h6 : SchedStep
        ⟨[⟨5, EventType.complete, 1⟩, ⟨4, EventType.arrival, 2⟩], 3,
         [⟨0, EventType.arrival, 1⟩]⟩
        ⟨[⟨5, EventType.complete, 1⟩, ⟨4, EventType.arrival, 2⟩], 4,
         [⟨0, EventType.arrival, 1⟩]⟩ := SchedStep.tick _
    have h7 : SchedStep
        ⟨[⟨5, EventType.complete, 1⟩, ⟨4, EventType.arrival, 2⟩], 4,
         [⟨0, EventType.arrival, 1⟩]⟩
        ⟨[⟨5, EventType.complete, 1⟩], 4,
         [⟨0, EventType.arrival, 1⟩, ⟨4, EventType.arrival, 2⟩]⟩ := by
      exact SchedStep.pop _ ⟨4, EventType.arrival, 2⟩ (by decide) (by decide) (by decide)
    have h8 : SchedStep
        ⟨[⟨5, EventType.complete, 1⟩], 4,
         [⟨0, EventType.arrival, 1⟩, ⟨4, EventType.arrival, 2⟩]⟩
        ⟨[⟨1, EventType.complete, 2⟩, ⟨5, EventType.complete, 1⟩], 4,
         [⟨0, EventType.arrival, 1⟩, ⟨4, EventType.arrival, 2⟩]⟩ := by
      exact SchedStep.push _ ⟨1, EventType.complete, 2⟩ (by decide)
    have h9 : SchedStep
        ⟨[⟨1, EventType.complete, 2⟩, ⟨5, EventType.complete, 1⟩], 4,
         [⟨0, EventType.arrival, 1⟩, ⟨4, EventType.arrival, 2⟩]⟩
        ⟨[⟨5, EventType.complete, 1⟩], 4,
         [⟨0, EventType.arrival, 1⟩, ⟨4, EventType.arrival, 2⟩,
          ⟨1, EventType.complete, 2⟩]⟩ := by
      exact SchedStep.pop _ ⟨1, EventType.complete, 2⟩ (by decide) (by decide) (by decide)
    exact ((((((((Relation.ReflTransGen.refl.tail h1).tail h2).tail h3).tail
      h4).tail h5).tail h6).tail h7).tail h8).tail h9
  · decide

/-- Claim C7 (amended): when every completion is pushed no earlier than the
current tick — true exactly when job durations are nonnegative — the
scheduler dequeues events in non-decreasing time order; and in every run,
negative durations included, no COMPLETE is dequeued before an ARRIVAL
carrying the same time (the tie side of `Event::operator<`). -/
theorem events_processed_in_time_order :
    (∀ (pq0 : List Event) (n0 : Int) (s : Sched),
      Relation.ReflTransGen SchedStepN ⟨pq0, n0, []⟩ s →
      s.pops.Pairwise (fun a b => a.time ≤ b.time)) ∧
    (∀ (pq0 : List Event) (n0 : Int) (s : Sched),
      Relation.ReflTransGen SchedStep ⟨pq0, n0, []⟩ s →
      s.pops.Pairwise (fun a b =>
        ¬(a.type = EventType.complete ∧ b.type = EventType.arrival ∧
          a.time = b.time))) := by
  constructor
  · intro pq0 n0 s h
    exact (schedInvN_reach h ⟨List.Pairwise.nil, by simp, by simp⟩).1
  · intro pq0 n0 s h
    exact (schedInvT_reach h ⟨List.Pairwise.nil, by simp⟩).1

/-- Witness for claim C7: a single due arrival popped from the queue gives
an ordered, tie-respecting dequeue history. -/
theorem events_processed_in_time_order_witness :
    List.Pairwise (fun a b : Event => a.time ≤ b.time)
      ((⟨[], 0, [⟨0, EventType.arrival, 1⟩]⟩ : Sched).pops) ∧
    List.Pairwise (fun a b : Event =>
      ¬(a.type = EventType.complete ∧ b.type = EventType.arrival ∧ a.time = b.time))
      ((⟨[], 0, [⟨0, EventType.arrival, 1⟩]⟩ : Sched).pops) :=
  ⟨events_processed_in_time_order.1 [⟨0, EventType.arrival, 1⟩] 0
      ⟨[], 0, [⟨0, EventType.arrival, 1⟩]⟩
      (Relation.ReflTransGen.single
        (SchedStepN.pop ⟨[⟨0, EventType.arrival, 1⟩], 0, []⟩ ⟨0, EventType.arrival, 1⟩
          (by decide) (by decide) (by decide))),
   events_processed_in_time_order.2 [⟨0, EventType.arrival, 1⟩] 0
      ⟨[], 0, [⟨0, EventType.arrival, 1⟩]⟩
      (Relation.ReflTransGen.single
        (SchedStep.pop ⟨[⟨0, EventType.arrival, 1⟩], 0, []⟩ ⟨0, EventType.arrival, 1⟩
          (by decide) (by decide) (by decide)))⟩

end EV

end PagingSim
